import Mathlib

/-!
Verification of the GGUF codec and conversion pipeline of this repository
(packages `llm` and `convert`).

The Go sources are shallowly embedded:
* files are lists of byte values (`List Nat`, little-endian multi-byte fields);
* Go strings are their byte sequences (`List Nat`);
* Go `any` metadata values are the tagged union `GoVal`;
* fallible operations return `Option`/`Except`;
* machine integers are `Nat`/`Int`; where Go truncates to a fixed width the
  embedding takes the value modulo `2^w` explicitly.
-/

namespace OllamaGGUF

/-! ## Byte-level primitives (package `llm`, `binary.Read`/`binary.Write`) -/

/-- Little-endian encoding of `n` into `k` bytes, as produced by
`binary.Write(w, binary.LittleEndian, v)` for a `k`-byte unsigned integer. -/
def natLE : Nat → Nat → List Nat
  | 0, _ => []
  | k + 1, n => n % 256 :: natLE k (n / 256)

/-- Little-endian decoding of `k` bytes from the front of a stream, as done by
`binary.Read(r, binary.LittleEndian, &v)`; `none` models a short read. -/
def readLE : Nat → List Nat → Option (Nat × List Nat)
  | 0, bs => some (0, bs)
  | _ + 1, [] => none
  | k + 1, b :: bs => (readLE k bs).map (fun p => (b + 256 * p.1, p.2))

theorem natLE_length (k n : Nat) : (natLE k n).length = k := by
  induction k generalizing n with
  | zero => rfl
  | succ k ih => simp [natLE, ih]

theorem readLE_natLE (k n : Nat) (rest : List Nat) :
    readLE k (natLE k n ++ rest) = some (n % 256 ^ k, rest) := by
  induction k generalizing n with
  | zero => simp [natLE, readLE, Nat.mod_one]
  | succ k ih =>
      have step : readLE (k + 1) (natLE (k + 1) n ++ rest)
          = (readLE k (natLE k (n / 256) ++ rest)).map
              (fun p => (n % 256 + 256 * p.1, p.2)) := rfl
      rw [step, ih]
      simp only [Option.map_some']
      have h1 : (256 : Nat) ^ (k + 1) = 256 * 256 ^ k := by ring
      rw [h1, Nat.mod_mul]

theorem readLE_natLE_of_lt {k n : Nat} (h : n < 256 ^ k) (rest : List Nat) :
    readLE k (natLE k n ++ rest) = some (n, rest) := by
  rw [readLE_natLE, Nat.mod_eq_of_lt h]

/-- Two's-complement reinterpretation of a `k`-byte unsigned value, as done by
`binary.Read` for a signed integer type of `k` bytes. -/
def sgn (k : Nat) (n : Nat) : Int :=
  if n < 2 ^ (8 * k - 1) then (n : Int) else (n : Int) - 2 ^ (8 * k)

/-- Two's-complement encoding of a signed `k`-byte integer, as done by
`binary.Write`: the value modulo `2^(8k)`, then little-endian bytes. -/
def intLE (k : Nat) (z : Int) : List Nat :=
  natLE k (z % (2 ^ (8 * k) : Nat)).toNat

/-! ## Go values (`any`) appearing in GGUF metadata

`GoScalar` models the scalar runtime types the codec traffics in; a Go string
is its byte sequence and a `float32`/`float64` is its bit pattern (the codec
only moves the bits, it never computes with them).  `GoVal` models the `any`
values held in a metadata map: boxed scalars, the four slice types the writer
accepts, and `[]any` as produced by `readGGUFArray` (whose elements are always
scalars or strings, since nested arrays are rejected on read). -/

inductive GoScalar where
  | u8 (n : Nat)
  | i8 (z : Int)
  | u16 (n : Nat)
  | i16 (z : Int)
  | u32 (n : Nat)
  | i32 (z : Int)
  | u64 (n : Nat)
  | i64 (z : Int)
  | f32 (bits : Nat)
  | f64 (bits : Nat)
  | bool (b : Bool)
  | str (s : List Nat)
deriving DecidableEq, Repr

inductive GoVal where
  | scalar (s : GoScalar)
  | arrI32 (l : List Int)
  | arrU32 (l : List Nat)
  | arrF32 (l : List Nat)
  | arrStr (l : List (List Nat))
  | arrAny (l : List GoScalar)
deriving DecidableEq, Repr

/-- GGUF wire type codes (the `ggufType*` constants). -/
def ggufTypeUint8 : Nat := 0
def ggufTypeInt8 : Nat := 1
def ggufTypeUint16 : Nat := 2
def ggufTypeInt16 : Nat := 3
def ggufTypeUint32 : Nat := 4
def ggufTypeInt32 : Nat := 5
def ggufTypeFloat32 : Nat := 6
def ggufTypeBool : Nat := 7
def ggufTypeString : Nat := 8
def ggufTypeArray : Nat := 9
def ggufTypeUint64 : Nat := 10
def ggufTypeInt64 : Nat := 11
def ggufTypeFloat64 : Nat := 12

/-! ## String reading (`readGGUFString`, `readGGUFV1String`) -/

/-- Outcome of `readGGUFV1String`: a normal return, an I/O error (short read),
or a runtime panic. -/
inductive V1StrResult where
  | ok (s : List Nat) (rest : List Nat)
  | ioError
  | panicked
deriving DecidableEq, Repr

/-- Model of `readGGUFV1String`: reads a `u64` length, copies that many bytes, then
truncates the buffer to `b.Len() - 1` to strip the trailing NUL.  When the
recorded length is `0`, `b.Truncate(-1)` is out of range and Go panics. -/
def readGGUFV1String (bs : List Nat) : V1StrResult :=
  match readLE 8 bs with
  | none => .ioError
  | some (len, r) =>
      if len ≤ r.length then
        if len = 0 then .panicked
        else .ok ((r.take len).dropLast) (r.drop len)
      else .ioError

/-- The v2/v3 string reader: a `u64` length then that many raw bytes. -/
def readStringV3 (bs : List Nat) : Option (List Nat × List Nat) :=
  match readLE 8 bs with
  | none => none
  | some (len, r) => if len ≤ r.length then some (r.take len, r.drop len) else none

/-- Model of `readGGUFString`, dispatching on the container version.  The v1 panic is
conflated with read failure here (`none`); `readGGUFV1String` keeps the two
apart where that distinction is the point. -/
def readGGUFString (version : Nat) (bs : List Nat) : Option (List Nat × List Nat) :=
  if version = 1 then
    match readGGUFV1String bs with
    | .ok s rest => some (s, rest)
    | _ => none
  else readStringV3 bs

theorem readStringV3_append (s rest : List Nat) (h : s.length < 2 ^ 64) :
    readStringV3 (natLE 8 s.length ++ (s ++ rest)) = some (s, rest) := by
  have h64 : s.length < 256 ^ 8 := by
    have : (256 : Nat) ^ 8 = 2 ^ 64 := by norm_num
    rw [this]; exact h
  rw [readStringV3, readLE_natLE_of_lt h64]
  simp [List.take_left, List.drop_left]

theorem readGGUFString_v3_append (s rest : List Nat) (h : s.length < 2 ^ 64) :
    readGGUFString 3 (natLE 8 s.length ++ (s ++ rest)) = some (s, rest) := by
  rw [readGGUFString]
  simp only [if_neg (by norm_num : (3 : Nat) ≠ 1)]
  exact readStringV3_append s rest h

/-! ## Scalar and array value reading (`gguf.Decode`, `readGGUFArray`) -/

/-- One scalar-or-string value of wire type `t`, shared by the type switch in
`gguf.Decode` and the element switch of `readGGUFArray`/`readGGUFV1Array`
(the two switches in the source are identical on these cases).  `none` for a
short read and for an unknown tag (`invalid type`), and also for the array tag
`9`, which neither switch accepts here (nested arrays are invalid). -/
def readScalar (version t : Nat) (bs : List Nat) : Option (GoScalar × List Nat) :=
  if t = ggufTypeUint8 then (readLE 1 bs).map (fun p => (.u8 p.1, p.2))
  else if t = ggufTypeInt8 then (readLE 1 bs).map (fun p => (.i8 (sgn 1 p.1), p.2))
  else if t = ggufTypeUint16 then (readLE 2 bs).map (fun p => (.u16 p.1, p.2))
  else if t = ggufTypeInt16 then (readLE 2 bs).map (fun p => (.i16 (sgn 2 p.1), p.2))
  else if t = ggufTypeUint32 then (readLE 4 bs).map (fun p => (.u32 p.1, p.2))
  else if t = ggufTypeInt32 then (readLE 4 bs).map (fun p => (.i32 (sgn 4 p.1), p.2))
  else if t = ggufTypeUint64 then (readLE 8 bs).map (fun p => (.u64 p.1, p.2))
  else if t = ggufTypeInt64 then (readLE 8 bs).map (fun p => (.i64 (sgn 8 p.1), p.2))
  else if t = ggufTypeFloat32 then (readLE 4 bs).map (fun p => (.f32 p.1, p.2))
  else if t = ggufTypeFloat64 then (readLE 8 bs).map (fun p => (.f64 p.1, p.2))
  else if t = ggufTypeBool then (readLE 1 bs).map (fun p => (.bool (p.1 != 0), p.2))
  else if t = ggufTypeString then (readGGUFString version bs).map (fun p => (.str p.1, p.2))
  else none

/-- The element loop of `readGGUFArray`: `n` elements of wire type `t`. -/
def readArrayElems (version t : Nat) : Nat → List Nat → Option (List GoScalar × List Nat)
  | 0, bs => some ([], bs)
  | n + 1, bs =>
      match readScalar version t bs with
      | none => none
      | some (e, bs2) =>
          match readArrayElems version t n bs2 with
          | none => none
          | some (es, bs3) => some (e :: es, bs3)

/-- Model of `readGGUFArray` (and `readGGUFV1Array` for version 1): element type tag
(`u32`), element count (`u64`, or `u32` in v1), then the elements. -/
def readGGUFArray (version : Nat) (bs : List Nat) : Option (GoVal × List Nat) :=
  (readLE 4 bs).bind (fun p1 =>
    ((if version = 1 then readLE 4 p1.2 else readLE 8 p1.2)).bind (fun p2 =>
      (readArrayElems version p1.1 p2.1 p2.2).map (fun p3 => (.arrAny p3.1, p3.2))))

/-- The value part of the `switch t` in `gguf.Decode`: a scalar, a string, or
an array, by wire type tag. -/
def readGGUFValue (version t : Nat) (bs : List Nat) : Option (GoVal × List Nat) :=
  if t = ggufTypeArray then readGGUFArray version bs
  else (readScalar version t bs).map (fun p => (.scalar p.1, p.2))

/-! ## Value writing (`ggufWriteKV` and its helpers) -/

/-- The per-type body emitted for a supported metadata value: wire type tag
followed by the encoded value.  `none` exactly on the `default` branch of the
type switch in `ggufWriteKV` (the unsupported runtime types). -/
def ggufValueBytes : GoVal → Option (List Nat)
  | .scalar (.u32 n) => some (natLE 4 ggufTypeUint32 ++ natLE 4 n)
  | .scalar (.f32 bits) => some (natLE 4 ggufTypeFloat32 ++ natLE 4 bits)
  | .scalar (.bool b) => some (natLE 4 ggufTypeBool ++ [if b then 1 else 0])
  | .scalar (.str s) => some (natLE 4 ggufTypeString ++ natLE 8 s.length ++ s)
  | .arrI32 l =>
      some (natLE 4 ggufTypeArray ++ natLE 4 ggufTypeInt32 ++ natLE 8 l.length
        ++ l.flatMap (intLE 4))
  | .arrU32 l =>
      some (natLE 4 ggufTypeArray ++ natLE 4 ggufTypeUint32 ++ natLE 8 l.length
        ++ l.flatMap (natLE 4))
  | .arrF32 l =>
      some (natLE 4 ggufTypeArray ++ natLE 4 ggufTypeFloat32 ++ natLE 8 l.length
        ++ l.flatMap (natLE 4))
  | .arrStr l =>
      some (natLE 4 ggufTypeArray ++ natLE 4 ggufTypeString ++ natLE 8 l.length
        ++ l.flatMap (fun s => natLE 8 s.length ++ s))
  | _ => none

/-- Returns `true` exactly on the runtime types `ggufWriteKV` accepts:
`uint32`, `float32`, `bool`, `string`, `[]int32`, `[]uint32`, `[]float32`,
`[]string`. -/
def supported : GoVal → Bool
  | .scalar (.u32 _) => true
  | .scalar (.f32 _) => true
  | .scalar (.bool _) => true
  | .scalar (.str _) => true
  | .arrI32 _ => true
  | .arrU32 _ => true
  | .arrF32 _ => true
  | .arrStr _ => true
  | _ => false

/-- The write-side error: `fmt.Errorf("improper type for '%s'", k)`. -/
inductive WriteErr where
  | improperType (key : List Nat)
deriving DecidableEq, Repr

/-- Model of `ggufWriteKV`: key length (`u64`), key bytes, then the typed value body;
the `default` branch returns the improper-type error naming the key. -/
def ggufWriteKV (k : List Nat) (v : GoVal) : Except WriteErr (List Nat) :=
  match ggufValueBytes v with
  | some body => .ok (natLE 8 k.length ++ k ++ body)
  | none => .error (.improperType k)

theorem ggufValueBytes_isSome_iff (v : GoVal) :
    (ggufValueBytes v).isSome = supported v := by
  cases v with
  | scalar s => cases s <;> rfl
  | arrI32 l => rfl
  | arrU32 l => rfl
  | arrF32 l => rfl
  | arrStr l => rfl
  | arrAny l => rfl

/-! ## Round-trip: values -/

/-- Go-typing bounds: the ranges the Go runtime types guarantee for the
writable values (other variants are unconstrained here). -/
def wfVal : GoVal → Prop
  | .scalar (.u32 n) => n < 2 ^ 32
  | .scalar (.f32 bits) => bits < 2 ^ 32
  | .scalar (.str s) => s.length < 2 ^ 64
  | .arrI32 l => l.length < 2 ^ 64 ∧ ∀ z ∈ l, -2 ^ 31 ≤ z ∧ z < 2 ^ 31
  | .arrU32 l => l.length < 2 ^ 64 ∧ ∀ n ∈ l, n < 2 ^ 32
  | .arrF32 l => l.length < 2 ^ 64 ∧ ∀ n ∈ l, n < 2 ^ 32
  | .arrStr l => l.length < 2 ^ 64 ∧ ∀ s ∈ l, s.length < 2 ^ 64
  | _ => True

/-- The value the reader hands back for a written value: scalars unchanged,
a typed slice as the `[]any` of its boxed elements. -/
def decodedOf : GoVal → GoVal
  | .scalar s => .scalar s
  | .arrI32 l => .arrAny (l.map GoScalar.i32)
  | .arrU32 l => .arrAny (l.map GoScalar.u32)
  | .arrF32 l => .arrAny (l.map GoScalar.f32)
  | .arrStr l => .arrAny (l.map GoScalar.str)
  | .arrAny l => .arrAny l

/-- Reading a `u32` wire tag followed by the tagged value, as each key/value
entry of `gguf.Decode` does after the key. -/
def readTagValue (version : Nat) (bs : List Nat) : Option (GoVal × List Nat) :=
  (readLE 4 bs).bind (fun p => readGGUFValue version p.1 p.2)

theorem readGGUFValue_of_ne_array {t : Nat} (h : t ≠ ggufTypeArray)
    (version : Nat) (bs : List Nat) :
    readGGUFValue version t bs
      = (readScalar version t bs).map (fun p => (GoVal.scalar p.1, p.2)) := by
  simp only [readGGUFValue, if_neg h]

theorem tagLt (t : Nat) (h : t ≤ 12) : t < 256 ^ 4 := by omega

theorem readTagValue_append (version t : Nat) (ht : t < 256 ^ 4)
    (body : List Nat) :
    readTagValue version (natLE 4 t ++ body) = readGGUFValue version t body := by
  rw [readTagValue, readLE_natLE_of_lt ht, Option.some_bind]

theorem readGGUFArray_v3_append (t : Nat) (ht : t < 256 ^ 4) (n : Nat)
    (hn : n < 256 ^ 8) (body : List Nat) :
    readGGUFArray 3 (natLE 4 t ++ (natLE 8 n ++ body))
      = (readArrayElems 3 t n body).map (fun p => (GoVal.arrAny p.1, p.2)) := by
  rw [readGGUFArray, readLE_natLE_of_lt ht, Option.some_bind]
  show ((if (3 : Nat) = 1 then readLE 4 (natLE 8 n ++ body)
      else readLE 8 (natLE 8 n ++ body))).bind _ = _
  rw [if_neg (by norm_num : (3 : Nat) ≠ 1), readLE_natLE_of_lt hn, Option.some_bind]

theorem readScalar_u32 (n : Nat) (h : n < 2 ^ 32) (r : List Nat) :
    readScalar 3 ggufTypeUint32 (natLE 4 n ++ r) = some (.u32 n, r) := by
  have h4 : n < 256 ^ 4 := by norm_num at h ⊢; omega
  simp [readScalar, ggufTypeUint8, ggufTypeInt8, ggufTypeUint16, ggufTypeInt16,
    ggufTypeUint32, readLE_natLE_of_lt h4]

theorem readScalar_f32 (n : Nat) (h : n < 2 ^ 32) (r : List Nat) :
    readScalar 3 ggufTypeFloat32 (natLE 4 n ++ r) = some (.f32 n, r) := by
  have h4 : n < 256 ^ 4 := by norm_num at h ⊢; omega
  simp [readScalar, ggufTypeUint8, ggufTypeInt8, ggufTypeUint16, ggufTypeInt16,
    ggufTypeUint32, ggufTypeInt32, ggufTypeUint64, ggufTypeInt64, ggufTypeFloat32,
    readLE_natLE_of_lt h4]

theorem readScalar_bool (b : Bool) (r : List Nat) :
    readScalar 3 ggufTypeBool ((if b then 1 else 0) :: r) = some (.bool b, r) := by
  have h1 : readLE 1 ((if b then 1 else 0) :: r) = some ((if b then 1 else 0), r) := by
    cases b <;> rfl
  simp only [readScalar, ggufTypeUint8, ggufTypeInt8, ggufTypeUint16, ggufTypeInt16,
    ggufTypeUint32, ggufTypeInt32, ggufTypeUint64, ggufTypeInt64, ggufTypeFloat32,
    ggufTypeFloat64, ggufTypeBool]
  norm_num
  rw [h1]
  cases b <;> simp

theorem readScalar_i32 (z : Int) (h1 : -2 ^ 31 ≤ z) (h2 : z < 2 ^ 31) (r : List Nat) :
    readScalar 3 ggufTypeInt32 (intLE 4 z ++ r) = some (.i32 z, r) := by
  have hlt : (z % (2 ^ (8 * 4) : Nat)).toNat < 256 ^ 4 := by
    norm_num
    omega
  have hread : readLE 4 (intLE 4 z ++ r) = some ((z % (2 ^ (8 * 4) : Nat)).toNat, r) := by
    rw [intLE, readLE_natLE_of_lt hlt]
  have hsgn2 : GoScalar.i32 (sgn 4 (z % (2 ^ (8 * 4) : Nat)).toNat) = GoScalar.i32 z := by
    congr 1
    rw [sgn]
    split <;> norm_num at * <;> omega
  have hsgn3 : sgn 4 (z % (4294967296 : Int)).toNat = z := by
    rw [sgn]
    split <;> norm_num at * <;> omega
  simp [readScalar, ggufTypeUint8, ggufTypeInt8, ggufTypeUint16, ggufTypeInt16,
    ggufTypeUint32, ggufTypeInt32, hread, hsgn2, hsgn3]

theorem readScalar_str (s : List Nat) (h : s.length < 2 ^ 64) (r : List Nat) :
    readScalar 3 ggufTypeString (natLE 8 s.length ++ (s ++ r)) = some (.str s, r) := by
  simp only [readScalar, ggufTypeUint8, ggufTypeInt8, ggufTypeUint16, ggufTypeInt16,
    ggufTypeUint32, ggufTypeInt32, ggufTypeUint64, ggufTypeInt64, ggufTypeFloat32,
    ggufTypeFloat64, ggufTypeBool, ggufTypeString]
  norm_num
  rw [readGGUFString_v3_append s r h]

theorem readArrayElems_i32 (l : List Int) (hl : ∀ z ∈ l, -2 ^ 31 ≤ z ∧ z < 2 ^ 31)
    (rest : List Nat) :
    readArrayElems 3 ggufTypeInt32 l.length (l.flatMap (intLE 4) ++ rest)
      = some (l.map GoScalar.i32, rest) := by
  induction l with
  | nil => simp [readArrayElems]
  | cons z l ih =>
      have hz := hl z (by simp)
      have hrec := ih (fun w hw => hl w (by simp [hw]))
      show readArrayElems 3 ggufTypeInt32 (l.length + 1)
        ((intLE 4 z ++ l.flatMap (intLE 4)) ++ rest) = _
      rw [List.append_assoc, readArrayElems, readScalar_i32 z hz.1 hz.2]
      simp [hrec]

theorem readArrayElems_u32 (l : List Nat) (hl : ∀ n ∈ l, n < 2 ^ 32) (rest : List Nat) :
    readArrayElems 3 ggufTypeUint32 l.length (l.flatMap (natLE 4) ++ rest)
      = some (l.map GoScalar.u32, rest) := by
  induction l with
  | nil => simp [readArrayElems]
  | cons n l ih =>
      have hn := hl n (by simp)
      have hrec := ih (fun w hw => hl w (by simp [hw]))
      show readArrayElems 3 ggufTypeUint32 (l.length + 1)
        ((natLE 4 n ++ l.flatMap (natLE 4)) ++ rest) = _
      rw [List.append_assoc, readArrayElems, readScalar_u32 n hn]
      simp [hrec]

theorem readArrayElems_f32 (l : List Nat) (hl : ∀ n ∈ l, n < 2 ^ 32) (rest : List Nat) :
    readArrayElems 3 ggufTypeFloat32 l.length (l.flatMap (natLE 4) ++ rest)
      = some (l.map GoScalar.f32, rest) := by
  induction l with
  | nil => simp [readArrayElems]
  | cons n l ih =>
      have hn := hl n (by simp)
      have hrec := ih (fun w hw => hl w (by simp [hw]))
      show readArrayElems 3 ggufTypeFloat32 (l.length + 1)
        ((natLE 4 n ++ l.flatMap (natLE 4)) ++ rest) = _
      rw [List.append_assoc, readArrayElems, readScalar_f32 n hn]
      simp [hrec]

theorem readArrayElems_str (l : List (List Nat)) (hl : ∀ s ∈ l, s.length < 2 ^ 64)
    (rest : List Nat) :
    readArrayElems 3 ggufTypeString l.length
      (l.flatMap (fun s => natLE 8 s.length ++ s) ++ rest)
      = some (l.map GoScalar.str, rest) := by
  induction l with
  | nil => simp [readArrayElems]
  | cons s l ih =>
      have hs := hl s (by simp)
      have hrec := ih (fun w hw => hl w (by simp [hw]))
      show readArrayElems 3 ggufTypeString (l.length + 1)
        (((natLE 8 s.length ++ s) ++ l.flatMap (fun s => natLE 8 s.length ++ s)) ++ rest)
        = _
      rw [List.append_assoc, List.append_assoc, readArrayElems,
        readScalar_str s hs]
      simp [hrec]

/-- Reading back a written value: the tag/value bytes of any supported,
well-typed value decode to its boxed form, leaving the suffix untouched. -/
theorem readTagValue_valueBytes (v : GoVal) (hw : wfVal v) (body : List Nat)
    (hb : ggufValueBytes v = some body) (rest : List Nat) :
    readTagValue 3 (body ++ rest) = some (decodedOf v, rest) := by
  cases v with
  | scalar s =>
      cases s with
      | u32 n =>
          obtain rfl : body = natLE 4 ggufTypeUint32 ++ natLE 4 n := by
            simpa [ggufValueBytes] using hb.symm
          rw [List.append_assoc,
            readTagValue_append 3 ggufTypeUint32 (tagLt _ (by norm_num [ggufTypeUint32])),
            readGGUFValue_of_ne_array (by norm_num [ggufTypeUint32, ggufTypeArray]),
            readScalar_u32 n hw]
          simp [decodedOf]
      | f32 bits =>
          obtain rfl : body = natLE 4 ggufTypeFloat32 ++ natLE 4 bits := by
            simpa [ggufValueBytes] using hb.symm
          rw [List.append_assoc,
            readTagValue_append 3 ggufTypeFloat32 (tagLt _ (by norm_num [ggufTypeFloat32])),
            readGGUFValue_of_ne_array (by norm_num [ggufTypeFloat32, ggufTypeArray]),
            readScalar_f32 bits hw]
          simp [decodedOf]
      | bool b =>
          obtain rfl : body = natLE 4 ggufTypeBool ++ [if b then 1 else 0] := by
            simpa [ggufValueBytes] using hb.symm
          have hcons : ([if b then (1 : Nat) else 0] : List Nat) ++ rest
              = (if b then (1 : Nat) else 0) :: rest := by simp
          rw [List.append_assoc,
            readTagValue_append 3 ggufTypeBool (tagLt _ (by norm_num [ggufTypeBool])),
            readGGUFValue_of_ne_array (by norm_num [ggufTypeBool, ggufTypeArray]),
            hcons, readScalar_bool b rest]
          simp [decodedOf]
      | str s =>
          obtain rfl : body = natLE 4 ggufTypeString ++ (natLE 8 s.length ++ s) := by
            simpa [ggufValueBytes, List.append_assoc] using hb.symm
          rw [List.append_assoc,
            readTagValue_append 3 ggufTypeString (tagLt _ (by norm_num [ggufTypeString])),
            readGGUFValue_of_ne_array (by norm_num [ggufTypeString, ggufTypeArray]),
            List.append_assoc, readScalar_str s hw]
          simp [decodedOf]
      | u8 n => simp [ggufValueBytes] at hb
      | i8 z => simp [ggufValueBytes] at hb
      | u16 n => simp [ggufValueBytes] at hb
      | i16 z => simp [ggufValueBytes] at hb
      | i32 z => simp [ggufValueBytes] at hb
      | u64 n => simp [ggufValueBytes] at hb
      | i64 z => simp [ggufValueBytes] at hb
      | f64 bits => simp [ggufValueBytes] at hb
  | arrI32 l =>
      obtain rfl : body = natLE 4 ggufTypeArray
          ++ (natLE 4 ggufTypeInt32 ++ (natLE 8 l.length ++ l.flatMap (intLE 4))) := by
        simpa [ggufValueBytes, List.append_assoc] using hb.symm
      have h64 : l.length < 256 ^ 8 := by
        have he : (256 : Nat) ^ 8 = 2 ^ 64 := by norm_num
        rw [he]; exact hw.1
      rw [List.append_assoc,
        readTagValue_append 3 ggufTypeArray (tagLt _ (by norm_num [ggufTypeArray]))]
      rw [show readGGUFValue 3 ggufTypeArray = readGGUFArray 3 from
        funext (fun bs => by simp [readGGUFValue])]
      rw [List.append_assoc, List.append_assoc,
        readGGUFArray_v3_append ggufTypeInt32 (tagLt _ (by norm_num [ggufTypeInt32]))
          l.length h64, readArrayElems_i32 l hw.2 rest]
      simp [decodedOf]
  | arrU32 l =>
      obtain rfl : body = natLE 4 ggufTypeArray
          ++ (natLE 4 ggufTypeUint32 ++ (natLE 8 l.length ++ l.flatMap (natLE 4))) := by
        simpa [ggufValueBytes, List.append_assoc] using hb.symm
      have h64 : l.length < 256 ^ 8 := by
        have he : (256 : Nat) ^ 8 = 2 ^ 64 := by norm_num
        rw [he]; exact hw.1
      rw [List.append_assoc,
        readTagValue_append 3 ggufTypeArray (tagLt _ (by norm_num [ggufTypeArray]))]
      rw [show readGGUFValue 3 ggufTypeArray = readGGUFArray 3 from
        funext (fun bs => by simp [readGGUFValue])]
      rw [List.append_assoc, List.append_assoc,
        readGGUFArray_v3_append ggufTypeUint32 (tagLt _ (by norm_num [ggufTypeUint32]))
          l.length h64, readArrayElems_u32 l hw.2 rest]
      simp [decodedOf]
  | arrF32 l =>
      obtain rfl : body = natLE 4 ggufTypeArray
          ++ (natLE 4 ggufTypeFloat32 ++ (natLE 8 l.length ++ l.flatMap (natLE 4))) := by
        simpa [ggufValueBytes, List.append_assoc] using hb.symm
      have h64 : l.length < 256 ^ 8 := by
        have he : (256 : Nat) ^ 8 = 2 ^ 64 := by norm_num
        rw [he]; exact hw.1
      rw [List.append_assoc,
        readTagValue_append 3 ggufTypeArray (tagLt _ (by norm_num [ggufTypeArray]))]
      rw [show readGGUFValue 3 ggufTypeArray = readGGUFArray 3 from
        funext (fun bs => by simp [readGGUFValue])]
      rw [List.append_assoc, List.append_assoc,
        readGGUFArray_v3_append ggufTypeFloat32 (tagLt _ (by norm_num [ggufTypeFloat32]))
          l.length h64, readArrayElems_f32 l hw.2 rest]
      simp [decodedOf]
  | arrStr l =>
      obtain rfl : body = natLE 4 ggufTypeArray
          ++ (natLE 4 ggufTypeString
            ++ (natLE 8 l.length ++ l.flatMap (fun s => natLE 8 s.length ++ s))) := by
        simpa [ggufValueBytes, List.append_assoc] using hb.symm
      have h64 : l.length < 256 ^ 8 := by
        have he : (256 : Nat) ^ 8 = 2 ^ 64 := by norm_num
        rw [he]; exact hw.1
      rw [List.append_assoc,
        readTagValue_append 3 ggufTypeArray (tagLt _ (by norm_num [ggufTypeArray]))]
      rw [show readGGUFValue 3 ggufTypeArray = readGGUFArray 3 from
        funext (fun bs => by simp [readGGUFValue])]
      rw [List.append_assoc, List.append_assoc,
        readGGUFArray_v3_append ggufTypeString (tagLt _ (by norm_num [ggufTypeString]))
          l.length h64, readArrayElems_str l hw.2 rest]
      simp [decodedOf]
  | arrAny l => simp [ggufValueBytes] at hb

/-! ## Go maps as assignment sequences -/

/-- A Go `map` modelled as its sequence of key/value assignments: lookup
returns the value of the last assignment to the key. -/
def goLookup {α β : Type} [DecidableEq α] : List (α × β) → α → Option β
  | [], _ => none
  | p :: rest, k =>
      match goLookup rest k with
      | some v => some v
      | none => if p.1 = k then some p.2 else none

theorem goLookup_append {α β : Type} [DecidableEq α] (l1 l2 : List (α × β)) (k : α) :
    goLookup (l1 ++ l2) k
      = match goLookup l2 k with
        | some v => some v
        | none => goLookup l1 k := by
  induction l1 with
  | nil =>
      cases h : goLookup l2 k <;> simp [goLookup, h]
  | cons p l1 ih =>
      show goLookup (p :: (l1 ++ l2)) k = _
      rw [goLookup, ih]
      cases h2 : goLookup l2 k <;> simp [goLookup]

theorem goLookup_mem {α β : Type} [DecidableEq α] {l : List (α × β)} {k : α} {v : β}
    (h : goLookup l k = some v) : (k, v) ∈ l := by
  induction l with
  | nil => cases h
  | cons p l ih =>
      rw [goLookup] at h
      cases h2 : goLookup l k with
      | some w =>
          rw [h2] at h
          cases h
          exact List.mem_cons_of_mem _ (ih h2)
      | none =>
          rw [h2] at h
          by_cases hk : p.1 = k
          · rw [if_pos hk] at h
            cases h
            rw [← hk]
            exact List.mem_cons_self _ _
          · rw [if_neg hk] at h
            cases h

theorem goLookup_eq_none_iff {α β : Type} [DecidableEq α] (l : List (α × β)) (k : α) :
    goLookup l k = none ↔ k ∉ l.map Prod.fst := by
  induction l with
  | nil => simp [goLookup]
  | cons p l ih =>
      rw [goLookup]
      cases h : goLookup l k with
      | some w =>
          simp only [List.map_cons, List.mem_cons]
          constructor
          · intro hf
            cases hf
          · intro hn
            exfalso
            apply hn
            right
            exact List.mem_map_of_mem Prod.fst (goLookup_mem h)
      | none =>
          have hmem : k ∉ l.map Prod.fst := ih.mp h
          by_cases hk : p.1 = k
          · rw [if_pos hk]
            simp [hk]
          · rw [if_neg hk]
            simp only [List.map_cons, List.mem_cons]
            constructor
            · rintro - (h1 | h2)
              · exact hk h1.symm
              · exact hmem h2
            · intro _
              trivial

theorem goLookup_of_mem_nodup {α β : Type} [DecidableEq α] {l : List (α × β)}
    (hnd : (l.map Prod.fst).Nodup) {k : α} {v : β} (h : (k, v) ∈ l) :
    goLookup l k = some v := by
  induction l with
  | nil => cases h
  | cons p l ih =>
      rw [List.map_cons, List.nodup_cons] at hnd
      rw [goLookup]
      rcases List.mem_cons.mp h with h1 | h2
      · have hnone : goLookup l k = none := by
          rw [goLookup_eq_none_iff]
          rw [← h1] at hnd
          exact hnd.1
        rw [hnone, ← h1]
        simp
      · rw [ih hnd.2 h2]

theorem goLookup_perm {α β : Type} [DecidableEq α] {l l2 : List (α × β)}
    (hp : l.Perm l2) (hnd : (l.map Prod.fst).Nodup) (k : α) :
    goLookup l k = goLookup l2 k := by
  have hnd2 : (l2.map Prod.fst).Nodup := (hp.map Prod.fst).nodup_iff.mp hnd
  cases h : goLookup l k with
  | some v => rw [goLookup_of_mem_nodup hnd2 (hp.mem_iff.mp (goLookup_mem h))]
  | none =>
      rw [goLookup_eq_none_iff] at h
      have h2 : goLookup l2 k = none := by
        rw [goLookup_eq_none_iff]
        intro hmem
        exact h (((hp.map Prod.fst).mem_iff).mpr hmem)
      rw [h2]

theorem goLookup_map_value {α β γ : Type} [DecidableEq α] (f : β → γ)
    (l : List (α × β)) (k : α) :
    goLookup (l.map (fun p => (p.1, f p.2))) k = (goLookup l k).map f := by
  induction l with
  | nil => simp [goLookup]
  | cons p l ih =>
      rw [List.map_cons, goLookup, goLookup, ih]
      cases goLookup l k with
      | some v => simp
      | none =>
          by_cases hk : p.1 = k <;> simp [hk]

/-! ## Byte-lexicographic order on Go strings (`slices.Sort`, `cmp.Compare`) -/

/-- Model of `cmp.Compare` on Go strings, as a `≤` test: byte-lexicographic with the
shorter prefix first. -/
def byteLeB : List Nat → List Nat → Bool
  | [], _ => true
  | _ :: _, [] => false
  | a :: as2, b :: bs2 => if a < b then true else if b < a then false else byteLeB as2 bs2

theorem byteLeB_total (a b : List Nat) : byteLeB a b = true ∨ byteLeB b a = true := by
  induction a generalizing b with
  | nil => left; rfl
  | cons x xs ih =>
      cases b with
      | nil => right; rfl
      | cons y ys =>
          rcases Nat.lt_trichotomy x y with h | h | h
          · left; simp [byteLeB, h]
          · subst h
            rcases ih ys with h2 | h2
            · left; simpa [byteLeB] using h2
            · right; simpa [byteLeB] using h2
          · right; simp [byteLeB, h]

theorem byteLeB_trans {a b c : List Nat} (h1 : byteLeB a b = true)
    (h2 : byteLeB b c = true) : byteLeB a c = true := by
  induction a generalizing b c with
  | nil => rfl
  | cons x xs ih =>
      cases b with
      | nil => simp [byteLeB] at h1
      | cons y ys =>
          cases c with
          | nil => simp [byteLeB] at h2
          | cons z zs =>
              simp only [byteLeB] at h1 h2 ⊢
              rcases Nat.lt_trichotomy x y with hxy | hxy | hxy
              · rcases Nat.lt_trichotomy y z with hyz | hyz | hyz
                · simp [Nat.lt_trans hxy hyz]
                · subst hyz; simp [hxy]
                · rw [if_neg (by omega), if_pos hyz] at h2; cases h2
              · subst hxy
                rcases Nat.lt_trichotomy x z with hyz | hyz | hyz
                · simp [hyz]
                · subst hyz
                  rw [if_neg (by omega), if_neg (by omega)] at h1 h2 ⊢
                  exact ih h1 h2
                · rw [if_neg (by omega), if_pos hyz] at h2; cases h2
              · rw [if_neg (by omega), if_pos hxy] at h1; cases h1

theorem byteLeB_antisymm {a b : List Nat} (h1 : byteLeB a b = true)
    (h2 : byteLeB b a = true) : a = b := by
  induction a generalizing b with
  | nil =>
      cases b with
      | nil => rfl
      | cons y ys => simp [byteLeB] at h2
  | cons x xs ih =>
      cases b with
      | nil => simp [byteLeB] at h1
      | cons y ys =>
          simp only [byteLeB] at h1 h2
          rcases Nat.lt_trichotomy x y with hxy | hxy | hxy
          · rw [if_neg (by omega), if_pos hxy] at h2; cases h2
          · subst hxy
            rw [if_neg (by omega), if_neg (by omega)] at h1 h2
            rw [ih h1 h2]
          · rw [if_neg (by omega), if_pos hxy] at h1; cases h1

/-! ## Tensors and the GGUF writer (`WriteGGUF` and helpers) -/

/-- A tensor descriptor handed to `WriteGGUF`: `Name`, `Kind`, `Shape`, and the
bytes its payload provider (`WriterTo`) streams out. -/
structure WTensor where
  name : List Nat
  kind : Nat
  shape : List Nat
  payload : List Nat
deriving DecidableEq, Repr

/-- Modelled from the spec: `Tensor.parameters` (referenced by `gguf.Decode`
but defined outside these sources) is the product of the shape dimensions. -/
def tensorParameters (shape : List Nat) : Nat := shape.foldl (· * ·) 1

/-- Modelled from the spec: `Tensor.Size` (referenced by `WriteGGUF` but
defined outside these sources) is `product(shape) × bytes_per_element(kind)`;
the bytes-per-element table is the parameter `bpe`. -/
def tensorSize (bpe : Nat → Nat) (t : WTensor) : Nat :=
  tensorParameters t.shape * bpe t.kind

/-- Model of `ggufPadding`: `(align - offset%align) % align`.  Callers guarantee
`align ≠ 0` (Go panics on a zero modulus). -/
def ggufPadding (offset align : Nat) : Nat := (align - offset % align) % align

/-- Model of `ggufWriteTensorInfo` with the offset the writer just assigned: name
length (`u64`), name bytes, `len(shape)` (`u32`), the shape entries in
reverse order (`u64` each), `kind` (`u32`), `offset` (`u64`). -/
def ggufWriteTensorInfo (t : WTensor) (offset : Nat) : List Nat :=
  natLE 8 t.name.length ++ t.name ++ natLE 4 t.shape.length
    ++ t.shape.reverse.flatMap (natLE 8) ++ natLE 4 t.kind ++ natLE 8 offset

/-- The offset-assignment walk of `WriteGGUF`: each tensor gets the running
total, which then grows by the tensor's size. -/
def assignOffsets (bpe : Nat → Nat) : List WTensor → Nat → List (WTensor × Nat)
  | [], _ => []
  | t :: ts, s => (t, s) :: assignOffsets bpe ts (s + tensorSize bpe t)

/-- The key ordering used by `slices.Sort` over the map keys: Go string
comparison is byte-lexicographic. -/
def keyLe (p q : List Nat × GoVal) : Prop := byteLeB p.1 q.1 = true

instance : DecidableRel keyLe := fun p q => by
  rw [keyLe]
  infer_instance

instance : IsTotal (List Nat × GoVal) keyLe :=
  ⟨fun a b => byteLeB_total a.1 b.1⟩

instance : IsTrans (List Nat × GoVal) keyLe :=
  ⟨fun _ _ _ => byteLeB_trans⟩

/-- The tensor ordering of `slices.SortFunc(ts, cmp.Compare on Name)`. -/
def tensorLe (a b : WTensor) : Prop := byteLeB a.name b.name = true

instance : DecidableRel tensorLe := fun a b => by
  rw [tensorLe]
  infer_instance

instance : IsTotal WTensor tensorLe :=
  ⟨fun a b => byteLeB_total a.name b.name⟩

instance : IsTrans WTensor tensorLe :=
  ⟨fun _ _ _ => byteLeB_trans⟩

/-- Model of `maps.Keys` + `slices.Sort` + indexing back into the map, modelled as
sorting the entry list by key (map keys are distinct, so any sorting
algorithm yields this result). -/
def sortKVByKey (kv : List (List Nat × GoVal)) : List (List Nat × GoVal) :=
  kv.insertionSort keyLe

/-- Model of `slices.SortFunc` on the tensor list by name. -/
def sortTensorsByName (ts : List WTensor) : List WTensor :=
  ts.insertionSort tensorLe

/-- The metadata-entry loop of `WriteGGUF`: emit each entry with
`ggufWriteKV`, stopping at the first error. -/
def writeKVPairs : List (List Nat × GoVal) → Except WriteErr (List Nat)
  | [] => .ok []
  | (k, v) :: rest =>
      match ggufWriteKV k v with
      | .error e => .error e
      | .ok b =>
          match writeKVPairs rest with
          | .error e => .error e
          | .ok bs => .ok (b ++ bs)

/-- The payload loop of `WriteGGUF` (`ggufWriteTensor`): each payload is
streamed then the absolute position is padded to the 32-byte alignment. -/
def writePayloads : List WTensor → Nat → List Nat
  | [], _ => []
  | t :: ts, pos =>
      let after := pos + t.payload.length
      let pad := ggufPadding after 32
      t.payload ++ List.replicate pad 0 ++ writePayloads ts (after + pad)

/-- The byte sequence `"GGUF"`. -/
def ggufMagic : List Nat := [71, 71, 85, 70]

/-- Model of `WriteGGUF`: magic, version 3, tensor count (`u64`), key count (`u64`),
metadata entries in ascending key order, tensor descriptors in ascending name
order with freshly assigned offsets, padding to a 32-byte boundary, then the
payloads in the same order with per-payload padding. -/
def WriteGGUF (bpe : Nat → Nat) (kv : List (List Nat × GoVal)) (ts : List WTensor) :
    Except WriteErr (List Nat) :=
  match writeKVPairs (sortKVByKey kv) with
  | .error e => .error e
  | .ok kvBytes =>
      let sortedTs := sortTensorsByName ts
      let infoBytes :=
        ((assignOffsets bpe sortedTs 0).map (fun p => ggufWriteTensorInfo p.1 p.2)).flatten
      let pre := ggufMagic ++ natLE 4 3 ++ natLE 8 ts.length ++ natLE 8 kv.length
        ++ kvBytes ++ infoBytes
      let pad := ggufPadding pre.length 32
      .ok (pre ++ List.replicate pad 0 ++ writePayloads sortedTs (pre.length + pad))

/-! ## The GGUF reader (`containerGGUF.Decode`, `gguf.Decode`) -/

/-- A decoded tensor descriptor (`llm.Tensor` as filled in by `gguf.Decode`):
the shape is stored in the on-disk order, without reversing. -/
structure GTensor where
  name : List Nat
  kind : Nat
  offset : Nat
  shape : List Nat
deriving DecidableEq, Repr

/-- The key/value loop of `gguf.Decode`, collecting the assignments made to
the metadata map in order. -/
def decodeKVPairs (version : Nat) : Nat → List Nat → Option (List (List Nat × GoVal) × List Nat)
  | 0, bs => some ([], bs)
  | n + 1, bs =>
      (readGGUFString version bs).bind (fun pk =>
        (readTagValue version pk.2).bind (fun pv =>
          (decodeKVPairs version n pv.2).map (fun pr => ((pk.1, pv.1) :: pr.1, pr.2))))

/-- The shape loop of `gguf.Decode`: `dims` entries of `u64`. -/
def readShapeDims : Nat → List Nat → Option (List Nat × List Nat)
  | 0, bs => some ([], bs)
  | d + 1, bs =>
      (readLE 8 bs).bind (fun p =>
        (readShapeDims d p.2).map (fun pr => (p.1 :: pr.1, pr.2)))

/-- One tensor descriptor as read by `gguf.Decode`: name, `dims` (`u32`),
`dims` shape entries in on-disk order, `kind` (`u32`), `offset` (`u64`). -/
def decodeTensorInfo (version : Nat) (bs : List Nat) : Option (GTensor × List Nat) :=
  (readGGUFString version bs).bind (fun p1 =>
    (readLE 4 p1.2).bind (fun p2 =>
      (readShapeDims p2.1 p2.2).bind (fun p3 =>
        (readLE 4 p3.2).bind (fun p4 =>
          (readLE 8 p4.2).map (fun p5 =>
            (⟨p1.1, p4.1, p5.1, p3.1⟩, p5.2))))))

/-- The tensor-descriptor loop of `gguf.Decode`. -/
def decodeTensorInfos (version : Nat) : Nat → List Nat → Option (List GTensor × List Nat)
  | 0, bs => some ([], bs)
  | n + 1, bs =>
      (decodeTensorInfo version bs).bind (fun pt =>
        (decodeTensorInfos version n pt.2).map (fun pr => (pt.1 :: pr.1, pr.2)))

/-- The bytes of `"general.parameter_count"`. -/
def gpcKey : List Nat := [103, 101, 110, 101, 114, 97, 108, 46, 112, 97, 114,
  97, 109, 101, 116, 101, 114, 95, 99, 111, 117, 110, 116]

/-- The bytes of `"general.alignment"`. -/
def alignmentKey : List Nat := [103, 101, 110, 101, 114, 97, 108, 46, 97, 108,
  105, 103, 110, 109, 101, 110, 116]

/-- The alignment `gguf.Decode` uses for the seek phase: the map's
`general.alignment` if present with runtime type `uint32`, else 32. -/
def alignOf (kv : List (List Nat × GoVal)) : Nat :=
  match goLookup kv alignmentKey with
  | some (GoVal.scalar (GoScalar.u32 a)) => a
  | _ => 32

/-- The decoded result of `gguf.Decode`: the metadata map (as its assignment
sequence), the tensor descriptors, and the accumulated parameter count. -/
structure DecodedGGUF where
  kv : List (List Nat × GoVal)
  tensors : List GTensor
  parameters : Nat
deriving DecidableEq, Repr

/-- Model of `gguf.Decode` after the container header: the key/value entries, the
tensor descriptors, the `general.parameter_count` patch (a `uint64` running
sum, hence modulo `2^64`), then the alignment-padding seeks past the payload
region.  Seeks on a byte stream cannot fail, but when the effective alignment
is `0` the padding computation `offset % align` panics in Go, modelled as
`none`. -/
def ggufDecodeBody (version numKV numTensor : Nat) (bs : List Nat) : Option DecodedGGUF :=
  (decodeKVPairs version numKV bs).bind (fun pkv =>
    (decodeTensorInfos version numTensor pkv.2).bind (fun pts =>
      let params := ((pts.1.map (fun t => tensorParameters t.shape)).sum) % 2 ^ 64
      let kv2 := pkv.1 ++ [(gpcKey, GoVal.scalar (.u64 params))]
      if alignOf kv2 = 0 then none
      else some ⟨kv2, pts.1, params⟩))

/-- Model of `containerGGUF.Decode`, entered just after the 4-byte magic: the `u32`
version, then the version-dependent header (v1: two `u32` counts; otherwise
two `u64` counts, tensors first), then the model body. -/
def containerGGUFDecode (bs : List Nat) : Option DecodedGGUF :=
  (readLE 4 bs).bind (fun pv =>
    if pv.1 = 1 then
      (readLE 4 pv.2).bind (fun pt =>
        (readLE 4 pt.2).bind (fun pk =>
          ggufDecodeBody 1 pk.1 pt.1 pk.2))
    else
      (readLE 8 pv.2).bind (fun pt =>
        (readLE 8 pt.2).bind (fun pk =>
          ggufDecodeBody pv.1 pk.1 pt.1 pk.2)))

/-! ## Round-trip: metadata entries and tensor descriptors -/

theorem writeKV_decode (l : List (List Nat × GoVal))
    (h : ∀ p ∈ l, wfVal p.2 ∧ supported p.2 = true)
    (hk : ∀ p ∈ l, p.1.length < 2 ^ 64) :
    ∃ bs, writeKVPairs l = .ok bs ∧ ∀ rest, decodeKVPairs 3 l.length (bs ++ rest)
      = some (l.map (fun p => (p.1, decodedOf p.2)), rest) := by
  induction l with
  | nil =>
      refine ⟨[], rfl, fun rest => ?_⟩
      simp [decodeKVPairs]
  | cons p l ih =>
      obtain ⟨k, v⟩ := p
      have hh := h (k, v) (List.mem_cons_self _ _)
      have hk1 := hk (k, v) (List.mem_cons_self _ _)
      obtain ⟨body, hbody⟩ : ∃ b, ggufValueBytes v = some b := by
        rw [← Option.isSome_iff_exists, ggufValueBytes_isSome_iff]
        exact hh.2
      obtain ⟨bs2, hw2, hd2⟩ := ih (fun q hq => h q (List.mem_cons_of_mem _ hq))
        (fun q hq => hk q (List.mem_cons_of_mem _ hq))
      refine ⟨(natLE 8 k.length ++ k ++ body) ++ bs2, ?_, ?_⟩
      · show writeKVPairs ((k, v) :: l) = _
        rw [writeKVPairs, ggufWriteKV, hbody, hw2]
      · intro rest
        show decodeKVPairs 3 (l.length + 1) _ = _
        have e1 : (((natLE 8 k.length ++ k ++ body) ++ bs2) ++ rest : List Nat)
            = natLE 8 k.length ++ (k ++ (body ++ (bs2 ++ rest))) := by
          simp [List.append_assoc]
        rw [decodeKVPairs, e1]
        simp only [readGGUFString_v3_append k (body ++ (bs2 ++ rest)) hk1,
          Option.some_bind]
        simp only [readTagValue_valueBytes v hh.1 body hbody (bs2 ++ rest),
          Option.some_bind]
        simp only [hd2 rest, Option.map_some']
        simp

theorem readShapeDims_flat (dims : List Nat) (h : ∀ d ∈ dims, d < 2 ^ 64)
    (rest : List Nat) :
    readShapeDims dims.length (dims.flatMap (natLE 8) ++ rest) = some (dims, rest) := by
  induction dims with
  | nil => simp [readShapeDims]
  | cons d dims ih =>
      have hd : d < 256 ^ 8 := by
        have he : (256 : Nat) ^ 8 = 2 ^ 64 := by norm_num
        rw [he]
        exact h d (by simp)
      have hrec := ih (fun w hw => h w (by simp [hw]))
      show readShapeDims (dims.length + 1) ((natLE 8 d ++ dims.flatMap (natLE 8)) ++ rest) = _
      rw [List.append_assoc, readShapeDims]
      simp only [readLE_natLE_of_lt hd, Option.some_bind]
      simp only [hrec, Option.map_some']

theorem decodeTensorInfo_write (t : WTensor) (offset : Nat)
    (hname : t.name.length < 2 ^ 64) (hdims : t.shape.length < 2 ^ 32)
    (hdim : ∀ d ∈ t.shape, d < 2 ^ 64) (hkind : t.kind < 2 ^ 32)
    (hoff : offset < 2 ^ 64) (rest : List Nat) :
    decodeTensorInfo 3 (ggufWriteTensorInfo t offset ++ rest)
      = some (⟨t.name, t.kind, offset, t.shape.reverse⟩, rest) := by
  have hd4 : t.shape.length < 256 ^ 4 := by norm_num at hdims ⊢; omega
  have hk4 : t.kind < 256 ^ 4 := by norm_num at hkind ⊢; omega
  have ho8 : offset < 256 ^ 8 := by norm_num at hoff ⊢; omega
  have e1 : ggufWriteTensorInfo t offset ++ rest
      = natLE 8 t.name.length ++ (t.name ++ (natLE 4 t.shape.length
        ++ (t.shape.reverse.flatMap (natLE 8) ++ (natLE 4 t.kind
          ++ (natLE 8 offset ++ rest))))) := by
    rw [ggufWriteTensorInfo]
    simp [List.append_assoc]
  have hsh := readShapeDims_flat t.shape.reverse
    (fun d hd => hdim d (List.mem_reverse.mp hd))
    (natLE 4 t.kind ++ (natLE 8 offset ++ rest))
  rw [List.length_reverse] at hsh
  rw [decodeTensorInfo, e1]
  simp only [readGGUFString_v3_append t.name _ hname, Option.some_bind]
  simp only [readLE_natLE_of_lt hd4, Option.some_bind]
  simp only [hsh, Option.some_bind]
  simp only [readLE_natLE_of_lt hk4, Option.some_bind]
  simp only [readLE_natLE_of_lt ho8, Option.map_some']

theorem assignOffsets_map_fst (bpe : Nat → Nat) (ts : List WTensor) (base : Nat) :
    (assignOffsets bpe ts base).map Prod.fst = ts := by
  induction ts generalizing base with
  | nil => rfl
  | cons t ts ih => simp [assignOffsets, ih]

theorem decodeTensorInfos_write (bpe : Nat → Nat) (ts : List WTensor) (base : Nat)
    (hname : ∀ t ∈ ts, t.name.length < 2 ^ 64)
    (hdims : ∀ t ∈ ts, t.shape.length < 2 ^ 32)
    (hdim : ∀ t ∈ ts, ∀ d ∈ t.shape, d < 2 ^ 64)
    (hkind : ∀ t ∈ ts, t.kind < 2 ^ 32)
    (htot : base + (ts.map (tensorSize bpe)).sum < 2 ^ 64)
    (rest : List Nat) :
    decodeTensorInfos 3 ts.length
      (((assignOffsets bpe ts base).map (fun p => ggufWriteTensorInfo p.1 p.2)).flatten ++ rest)
      = some ((assignOffsets bpe ts base).map
          (fun p => ⟨p.1.name, p.1.kind, p.2, p.1.shape.reverse⟩), rest) := by
  induction ts generalizing base with
  | nil => simp [decodeTensorInfos, assignOffsets]
  | cons t ts ih =>
      have hbase : base < 2 ^ 64 := by
        have : (0 : Nat) ≤ (ts.map (tensorSize bpe)).sum := Nat.zero_le _
        simp only [List.map_cons, List.sum_cons] at htot
        omega
      have hrec := ih (base + tensorSize bpe t)
        (fun w hw => hname w (by simp [hw]))
        (fun w hw => hdims w (by simp [hw]))
        (fun w hw => hdim w (by simp [hw]))
        (fun w hw => hkind w (by simp [hw]))
        (by simp only [List.map_cons, List.sum_cons] at htot; omega)
      show decodeTensorInfos 3 (ts.length + 1) _ = _
      rw [assignOffsets, List.map_cons, List.flatten_cons, List.append_assoc,
        decodeTensorInfos]
      simp only [decodeTensorInfo_write t base (hname t (by simp))
        (hdims t (by simp)) (hdim t (by simp)) (hkind t (by simp)) hbase,
        Option.some_bind]
      simp only [hrec, Option.map_some']
      simp [assignOffsets]

/-! ## Round-trip: whole files -/

/-- The metadata assignment sequence `gguf.Decode` produces for a file written
from map `kv` (before the parameter-count patch). -/
def decodedKVList (kv : List (List Nat × GoVal)) : List (List Nat × GoVal) :=
  (sortKVByKey kv).map (fun p => (p.1, decodedOf p.2))

/-- The parameter count accumulated by the reader: the sum over tensors of the
product of the shape dimensions, as a Go `uint64`. -/
def paramCount (ts : List WTensor) : Nat :=
  ((ts.map (fun t => tensorParameters t.shape)).sum) % 2 ^ 64

/-- The tensor descriptors `gguf.Decode` produces for a file written from
tensor list `ts`: sorted by name, offsets as assigned by the writer, shapes
reversed. -/
def decodedTensors (bpe : Nat → Nat) (ts : List WTensor) : List GTensor :=
  (assignOffsets bpe (sortTensorsByName ts) 0).map
    (fun p => ⟨p.1.name, p.1.kind, p.2, p.1.shape.reverse⟩)

theorem tensorParameters_reverse (l : List Nat) :
    tensorParameters l.reverse = tensorParameters l := by
  rw [tensorParameters, tensorParameters, ← List.prod_eq_foldl, ← List.prod_eq_foldl,
    List.prod_reverse]

/-- Writing a well-typed metadata map and tensor list and decoding the result:
the decoder sees the sorted entries (arrays boxed), the parameter-count patch,
and the sorted descriptors with assigned offsets and reversed shapes. -/
theorem gguf_roundtrip (bpe : Nat → Nat) (kv : List (List Nat × GoVal))
    (ts : List WTensor)
    (hval : ∀ p ∈ kv, wfVal p.2 ∧ supported p.2 = true)
    (hklen : ∀ p ∈ kv, p.1.length < 2 ^ 64)
    (hkvn : kv.length < 2 ^ 64) (htsn : ts.length < 2 ^ 64)
    (hname : ∀ t ∈ ts, t.name.length < 2 ^ 64)
    (hdims : ∀ t ∈ ts, t.shape.length < 2 ^ 32)
    (hdim : ∀ t ∈ ts, ∀ d ∈ t.shape, d < 2 ^ 64)
    (hkind : ∀ t ∈ ts, t.kind < 2 ^ 32)
    (hsum : (ts.map (tensorSize bpe)).sum < 2 ^ 64)
    (halign : alignOf (decodedKVList kv
      ++ [(gpcKey, GoVal.scalar (.u64 (paramCount ts)))]) ≠ 0) :
    ∃ file, WriteGGUF bpe kv ts = .ok file ∧
      containerGGUFDecode (file.drop 4) = some
        ⟨decodedKVList kv ++ [(gpcKey, GoVal.scalar (.u64 (paramCount ts)))],
         decodedTensors bpe ts, paramCount ts⟩ := by
  obtain ⟨kvBytes, hw, hdec⟩ := writeKV_decode (sortKVByKey kv)
    (fun p hp => hval p ((List.mem_insertionSort keyLe).mp hp))
    (fun p hp => hklen p ((List.mem_insertionSort keyLe).mp hp))
  have hperm : sortTensorsByName ts |>.Perm ts := List.perm_insertionSort tensorLe ts
  have hsum2 : ((sortTensorsByName ts).map (tensorSize bpe)).sum < 2 ^ 64 := by
    rw [(hperm.map (tensorSize bpe)).sum_eq]
    exact hsum
  have hlenKV : (sortKVByKey kv).length = kv.length :=
    List.length_insertionSort keyLe kv
  have hlenTS : (sortTensorsByName ts).length = ts.length :=
    List.length_insertionSort tensorLe ts
  set sortedTs := sortTensorsByName ts with hsts
  set infoBytes :=
    ((assignOffsets bpe sortedTs 0).map (fun p => ggufWriteTensorInfo p.1 p.2)).flatten
    with hinfo
  set pre := ggufMagic ++ natLE 4 3 ++ natLE 8 ts.length ++ natLE 8 kv.length
    ++ kvBytes ++ infoBytes with hpre
  set pad := ggufPadding pre.length 32 with hpad
  set tail := List.replicate pad 0 ++ writePayloads sortedTs (pre.length + pad)
    with htail
  refine ⟨pre ++ List.replicate pad 0 ++ writePayloads sortedTs (pre.length + pad),
    ?_, ?_⟩
  · rw [WriteGGUF, hw]
  · have hdrop : (pre ++ List.replicate pad 0
        ++ writePayloads sortedTs (pre.length + pad)).drop 4
        = natLE 4 3 ++ (natLE 8 ts.length ++ (natLE 8 kv.length
          ++ (kvBytes ++ (infoBytes ++ tail)))) := by
      rw [htail, hpre]
      simp only [List.append_assoc]
      rw [show (4 : Nat) = ggufMagic.length from rfl, List.drop_left]
    rw [hdrop, containerGGUFDecode]
    simp only [readLE_natLE_of_lt (show (3 : Nat) < 256 ^ 4 by norm_num),
      Option.some_bind]
    rw [if_neg (by norm_num : ¬((3 : Nat), natLE 8 ts.length
      ++ (natLE 8 kv.length ++ (kvBytes ++ (infoBytes ++ tail)))).1 = 1)]
    have hts8 : ts.length < 256 ^ 8 := by norm_num at htsn ⊢; omega
    have hkv8 : kv.length < 256 ^ 8 := by norm_num at hkvn ⊢; omega
    simp only [readLE_natLE_of_lt hts8, Option.some_bind]
    simp only [readLE_natLE_of_lt hkv8, Option.some_bind]
    rw [ggufDecodeBody]
    rw [← hlenKV]
    simp only [hdec (infoBytes ++ tail), Option.some_bind]
    have hdt := decodeTensorInfos_write bpe sortedTs 0
      (fun t ht => hname t (hperm.mem_iff.mp ht))
      (fun t ht => hdims t (hperm.mem_iff.mp ht))
      (fun t ht => hdim t (hperm.mem_iff.mp ht))
      (fun t ht => hkind t (hperm.mem_iff.mp ht))
      (by simpa using hsum2) tail
    rw [← hlenTS]
    simp only [hdt, Option.some_bind]
    have hparams : (((assignOffsets bpe sortedTs 0).map
          (fun p => (⟨p.1.name, p.1.kind, p.2, p.1.shape.reverse⟩ : GTensor))).map
            (fun t => tensorParameters t.shape)).sum % 2 ^ 64 = paramCount ts := by
      rw [List.map_map]
      have e1 : ((fun t => tensorParameters t.shape) ∘
            (fun p : WTensor × Nat => (⟨p.1.name, p.1.kind, p.2, p.1.shape.reverse⟩ : GTensor)))
          = (fun p : WTensor × Nat => tensorParameters p.1.shape.reverse) := rfl
      rw [e1]
      have e2 : (fun p : WTensor × Nat => tensorParameters p.1.shape.reverse)
          = ((fun w : WTensor => tensorParameters w.shape.reverse) ∘ Prod.fst) := rfl
      rw [e2, ← List.map_map, assignOffsets_map_fst]
      have e3 : sortedTs.map (fun w : WTensor => tensorParameters w.shape.reverse)
          = sortedTs.map (fun w : WTensor => tensorParameters w.shape) := by
        apply List.map_congr_left
        intro w _
        exact tensorParameters_reverse w.shape
      rw [e3, paramCount, (hperm.map (fun w : WTensor => tensorParameters w.shape)).sum_eq]
    rw [hparams]
    rw [if_neg (by simpa [decodedKVList] using halign)]
    rfl

instance (v : GoVal) : Decidable (wfVal v) :=
  match v with
  | .scalar (.u8 _) => inferInstanceAs (Decidable True)
  | .scalar (.i8 _) => inferInstanceAs (Decidable True)
  | .scalar (.u16 _) => inferInstanceAs (Decidable True)
  | .scalar (.i16 _) => inferInstanceAs (Decidable True)
  | .scalar (.u32 n) => inferInstanceAs (Decidable (n < 2 ^ 32))
  | .scalar (.i32 _) => inferInstanceAs (Decidable True)
  | .scalar (.u64 _) => inferInstanceAs (Decidable True)
  | .scalar (.i64 _) => inferInstanceAs (Decidable True)
  | .scalar (.f32 bits) => inferInstanceAs (Decidable (bits < 2 ^ 32))
  | .scalar (.f64 _) => inferInstanceAs (Decidable True)
  | .scalar (.bool _) => inferInstanceAs (Decidable True)
  | .scalar (.str s) => inferInstanceAs (Decidable (s.length < 2 ^ 64))
  | .arrI32 l =>
      inferInstanceAs (Decidable (l.length < 2 ^ 64 ∧ ∀ z ∈ l, -2 ^ 31 ≤ z ∧ z < 2 ^ 31))
  | .arrU32 l => inferInstanceAs (Decidable (l.length < 2 ^ 64 ∧ ∀ n ∈ l, n < 2 ^ 32))
  | .arrF32 l => inferInstanceAs (Decidable (l.length < 2 ^ 64 ∧ ∀ n ∈ l, n < 2 ^ 32))
  | .arrStr l =>
      inferInstanceAs (Decidable (l.length < 2 ^ 64 ∧ ∀ s ∈ l, s.length < 2 ^ 64))
  | .arrAny _ => inferInstanceAs (Decidable True)

theorem decodedKVList_lookup (kv : List (List Nat × GoVal))
    (hnd : (kv.map Prod.fst).Nodup) (k : List Nat) :
    goLookup (decodedKVList kv) k = (goLookup kv k).map decodedOf := by
  rw [decodedKVList, goLookup_map_value]
  have hperm : (sortKVByKey kv).Perm kv := List.perm_insertionSort keyLe kv
  have hnd2 : ((sortKVByKey kv).map Prod.fst).Nodup :=
    ((hperm.map Prod.fst).nodup_iff).mpr hnd
  rw [goLookup_perm hperm hnd2 k]

theorem goLookup_singleton_ne {β : Type} {k k2 : List Nat} (h : k2 ≠ k) (v : β) :
    goLookup [(k, v)] k2 = none := by
  have h2 : ¬ k = k2 := fun he => h he.symm
  simp [goLookup, h2]

/-- Claim C1 (amended).  For a metadata map `M` of supported, well-typed
values whose keys are distinct and whose `general.alignment` entry (if
present as a `u32`) is nonzero, decoding the written file succeeds and yields
a map that agrees with `M` at every key other than `general.parameter_count`
(arrays coming back as boxed `[]any` with identical elements) and binds
`general.parameter_count` to the `u64` sum over the written tensors of the
product of their dimensions, overwriting any value `M` had there. -/
theorem c1_metadata_roundtrip_amended (bpe : Nat → Nat)
    (kv : List (List Nat × GoVal)) (ts : List WTensor)
    (hval : ∀ p ∈ kv, wfVal p.2 ∧ supported p.2 = true)
    (hklen : ∀ p ∈ kv, p.1.length < 2 ^ 64)
    (hnd : (kv.map Prod.fst).Nodup)
    (halignkv : ∀ a, (alignmentKey, GoVal.scalar (.u32 a)) ∈ kv → a ≠ 0)
    (hkvn : kv.length < 2 ^ 64) (htsn : ts.length < 2 ^ 64)
    (hname : ∀ t ∈ ts, t.name.length < 2 ^ 64)
    (hdims : ∀ t ∈ ts, t.shape.length < 2 ^ 32)
    (hdim : ∀ t ∈ ts, ∀ d ∈ t.shape, d < 2 ^ 64)
    (hkind : ∀ t ∈ ts, t.kind < 2 ^ 32)
    (hsum : (ts.map (tensorSize bpe)).sum < 2 ^ 64) :
    ∃ file st, WriteGGUF bpe kv ts = .ok file
      ∧ containerGGUFDecode (file.drop 4) = some st
      ∧ ∀ k, goLookup st.kv k =
          if k = gpcKey then some (GoVal.scalar (.u64 (paramCount ts)))
          else (goLookup kv k).map decodedOf := by
  have halign : alignOf (decodedKVList kv
      ++ [(gpcKey, GoVal.scalar (.u64 (paramCount ts)))]) ≠ 0 := by
    rw [alignOf, goLookup_append,
      goLookup_singleton_ne (by decide : alignmentKey ≠ gpcKey),
      decodedKVList_lookup kv hnd]
    cases hl : goLookup kv alignmentKey with
    | none => simp
    | some v =>
        cases v with
        | scalar sc =>
            cases sc with
            | u32 a =>
                simp only [Option.map_some', decodedOf]
                exact halignkv a (goLookup_mem hl)
            | u8 n => simp [decodedOf]
            | i8 z => simp [decodedOf]
            | u16 n => simp [decodedOf]
            | i16 z => simp [decodedOf]
            | i32 z => simp [decodedOf]
            | u64 n => simp [decodedOf]
            | i64 z => simp [decodedOf]
            | f32 b => simp [decodedOf]
            | f64 b => simp [decodedOf]
            | bool b => simp [decodedOf]
            | str s2 => simp [decodedOf]
        | arrI32 l => simp [decodedOf]
        | arrU32 l => simp [decodedOf]
        | arrF32 l => simp [decodedOf]
        | arrStr l => simp [decodedOf]
        | arrAny l => simp [decodedOf]
  obtain ⟨file, hfile, hdec⟩ := gguf_roundtrip bpe kv ts hval hklen hkvn htsn
    hname hdims hdim hkind hsum halign
  refine ⟨file, _, hfile, hdec, fun k => ?_⟩
  rw [goLookup_append]
  by_cases hk : k = gpcKey
  · subst hk
    rw [if_pos rfl, goLookup]
    simp [goLookup]
  · rw [if_neg hk, goLookup_singleton_ne hk, decodedKVList_lookup kv hnd]

/-- Claim C1, counterexample to the claim as stated.  Take
`M = {"general.parameter_count": u32(0)}` and no tensors.  The decode
succeeds, but the decoded map has the same single key as `M` with a different
value (`u64(0)` instead of `u32(0)`): the reader overwrites the key rather
than adding one, so the result is not `M` plus one extra key. -/
theorem c1_counterexample :
    ((WriteGGUF (fun _ => 4) [(gpcKey, GoVal.scalar (.u32 0))] []).toOption.isSome
        = true)
    ∧ (containerGGUFDecode
        (((WriteGGUF (fun _ => 4) [(gpcKey, GoVal.scalar (.u32 0))] []).toOption.getD
          []).drop 4)).isSome = true
    ∧ goLookup [(gpcKey, GoVal.scalar (GoScalar.u32 0))] gpcKey
        = some (GoVal.scalar (.u32 0))
    ∧ goLookup ((containerGGUFDecode
        (((WriteGGUF (fun _ => 4) [(gpcKey, GoVal.scalar (.u32 0))] []).toOption.getD
          []).drop 4)).getD ⟨[], [], 0⟩).kv gpcKey
        = some (GoVal.scalar (.u64 0))
    ∧ (((containerGGUFDecode
        (((WriteGGUF (fun _ => 4) [(gpcKey, GoVal.scalar (.u32 0))] []).toOption.getD
          []).drop 4)).getD ⟨[], [], 0⟩).kv.map Prod.fst).dedup = [gpcKey]
    ∧ GoVal.scalar (GoScalar.u64 0) ≠ GoVal.scalar (GoScalar.u32 0) := by
  decide

/-- Claim C1, witness: a concrete map (one `[]int32` value) and one `2×3`
tensor; the decoded map holds the boxed array at the original key and
`u64(6)` under `general.parameter_count`. -/
theorem c1_witness :
    (WriteGGUF (fun _ => 4) [([97], GoVal.arrI32 [1, -2])]
      [⟨[116], 0, [2, 3], []⟩]).toOption.isSome = true
    ∧ goLookup ((containerGGUFDecode (((WriteGGUF (fun _ => 4)
        [([97], GoVal.arrI32 [1, -2])] [⟨[116], 0, [2, 3], []⟩]).toOption.getD
          []).drop 4)).getD ⟨[], [], 0⟩).kv gpcKey
        = some (GoVal.scalar (.u64 6))
    ∧ goLookup ((containerGGUFDecode (((WriteGGUF (fun _ => 4)
        [([97], GoVal.arrI32 [1, -2])] [⟨[116], 0, [2, 3], []⟩]).toOption.getD
          []).drop 4)).getD ⟨[], [], 0⟩).kv [97]
        = some (GoVal.arrAny [GoScalar.i32 1, GoScalar.i32 (-2)]) := by
  obtain ⟨file, st, hfile, hst, hlook⟩ := c1_metadata_roundtrip_amended (fun _ => 4)
    [([97], GoVal.arrI32 [1, -2])] [⟨[116], 0, [2, 3], []⟩]
    (by decide) (by decide) (by decide)
    (by intro a ha; simp [alignmentKey] at ha)
    (by decide) (by decide) (by decide) (by decide) (by decide) (by decide) (by decide)
  refine ⟨?_, ?_, ?_⟩
  · rw [hfile]
    rfl
  · rw [hfile]
    show goLookup ((containerGGUFDecode (file.drop 4)).getD ⟨[], [], 0⟩).kv gpcKey = _
    rw [hst]
    show goLookup st.kv gpcKey = _
    rw [hlook gpcKey, if_pos rfl]
    decide
  · rw [hfile]
    show goLookup ((containerGGUFDecode (file.drop 4)).getD ⟨[], [], 0⟩).kv [97] = _
    rw [hst]
    show goLookup st.kv [97] = _
    rw [hlook [97], if_neg (by decide)]
    decide

/-- Claim C2.  Writing any well-typed tensor list (here with an empty
metadata map) and decoding the file: the decoded descriptors are exactly the
written ones in sorted-name order — same name, kind, and assigned offset —
with the shape reversed relative to what the writer was given. -/
theorem c2_tensor_roundtrip (bpe : Nat → Nat) (ts : List WTensor)
    (htsn : ts.length < 2 ^ 64)
    (hname : ∀ t ∈ ts, t.name.length < 2 ^ 64)
    (hdims : ∀ t ∈ ts, t.shape.length < 2 ^ 32)
    (hdim : ∀ t ∈ ts, ∀ d ∈ t.shape, d < 2 ^ 64)
    (hkind : ∀ t ∈ ts, t.kind < 2 ^ 32)
    (hsum : (ts.map (tensorSize bpe)).sum < 2 ^ 64) :
    ∃ file st, WriteGGUF bpe [] ts = .ok file
      ∧ containerGGUFDecode (file.drop 4) = some st
      ∧ st.tensors = (assignOffsets bpe (sortTensorsByName ts) 0).map
          (fun p => ⟨p.1.name, p.1.kind, p.2, p.1.shape.reverse⟩) := by
  have halign : alignOf (decodedKVList []
      ++ [(gpcKey, GoVal.scalar (.u64 (paramCount ts)))]) ≠ 0 := by
    rw [alignOf, goLookup_append,
      goLookup_singleton_ne (by decide : alignmentKey ≠ gpcKey)]
    simp [decodedKVList, sortKVByKey, goLookup]
  obtain ⟨file, hfile, hdec⟩ := gguf_roundtrip bpe [] ts (by simp) (by simp)
    (by norm_num) htsn hname hdims hdim hkind hsum halign
  exact ⟨file, _, hfile, hdec, rfl⟩

/-- Claim C2, witness: two tensors given out of name order; the decode yields
them sorted by name, offsets `0` and `24`, shapes reversed. -/
theorem c2_witness :
    (WriteGGUF (fun _ => 4) []
      [⟨[98], 0, [4], []⟩, ⟨[97], 0, [2, 3], []⟩]).toOption.isSome = true
    ∧ ((containerGGUFDecode (((WriteGGUF (fun _ => 4) []
        [⟨[98], 0, [4], []⟩, ⟨[97], 0, [2, 3], []⟩]).toOption.getD []).drop
          4)).getD ⟨[], [], 0⟩).tensors
        = [⟨[97], 0, 0, [3, 2]⟩, ⟨[98], 0, 24, [4]⟩] := by
  obtain ⟨file, st, hfile, hst, hts⟩ := c2_tensor_roundtrip (fun _ => 4)
    [⟨[98], 0, [4], []⟩, ⟨[97], 0, [2, 3], []⟩]
    (by decide) (by decide) (by decide) (by decide) (by decide) (by decide)
  refine ⟨?_, ?_⟩
  · rw [hfile]
    rfl
  · rw [hfile]
    show ((containerGGUFDecode (file.drop 4)).getD ⟨[], [], 0⟩).tensors = _
    rw [hst]
    show st.tensors = _
    rw [hts]
    decide

/-! ## Writer ordering (claim C3) -/

/-- The offsets assigned by the writer's walk: each entry is the sum of the
sizes before it. -/
def runningSums (acc : Nat) : List Nat → List Nat
  | [] => []
  | x :: xs => acc :: runningSums (acc + x) xs

theorem assignOffsets_snd (bpe : Nat → Nat) (ts : List WTensor) (base : Nat) :
    (assignOffsets bpe ts base).map Prod.snd
      = runningSums base (ts.map (tensorSize bpe)) := by
  induction ts generalizing base with
  | nil => rfl
  | cons t ts ih => simp [assignOffsets, runningSums, ih]

theorem runningSums_le (acc : Nat) (l : List Nat) :
    ∀ y ∈ runningSums acc l, acc ≤ y := by
  induction l generalizing acc with
  | nil => intro y hy; cases hy
  | cons x xs ih =>
      intro y hy
      rcases List.mem_cons.mp hy with h1 | h2
      · omega
      · have := ih (acc + x) y h2
        omega

theorem runningSums_pairwise_le (acc : Nat) (l : List Nat) :
    List.Pairwise (fun a b : Nat => a ≤ b) (runningSums acc l) := by
  induction l generalizing acc with
  | nil => exact List.Pairwise.nil
  | cons x xs ih =>
      refine List.Pairwise.cons (fun y hy => ?_) (ih (acc + x))
      have := runningSums_le (acc + x) xs y hy
      omega

theorem runningSums_pairwise_lt (acc : Nat) (l : List Nat)
    (hpos : ∀ x ∈ l, 0 < x) :
    List.Pairwise (fun a b : Nat => a < b) (runningSums acc l) := by
  induction l generalizing acc with
  | nil => exact List.Pairwise.nil
  | cons x xs ih =>
      refine List.Pairwise.cons (fun y hy => ?_)
        (ih (acc + x) (fun w hw => hpos w (by simp [hw])))
      have h1 := runningSums_le (acc + x) xs y hy
      have h2 := hpos x (by simp)
      omega

/-- Claim C3 (amended).  In every file emitted by `WriteGGUF` whose total
tensor size fits in the writer's `uint64` offset accumulator (beyond
`2^64 - 1` the accumulator wraps and the stored offsets are the running sums
modulo `2^64`): metadata entries appear in strictly ascending byte order of
key; tensor descriptors (and their payloads, which are walked in the same
sorted order) appear in strictly ascending byte order of name; each assigned
offset equals the running sum of the preceding tensors' sizes, so the offset
sequence is nondecreasing — and it is strictly increasing provided every
tensor has positive size (a zero-size tensor repeats the previous offset, so
strictness does not hold unconditionally, see the counterexample). -/
theorem c3_writer_ordering_amended (bpe : Nat → Nat)
    (kv : List (List Nat × GoVal)) (ts : List WTensor)
    (hndk : (kv.map Prod.fst).Nodup) (hndt : (ts.map WTensor.name).Nodup)
    (hsum : (ts.map (tensorSize bpe)).sum < 2 ^ 64) :
    List.Pairwise (fun a b => byteLeB a b = true ∧ a ≠ b)
      ((sortKVByKey kv).map Prod.fst)
    ∧ List.Pairwise (fun a b : WTensor => byteLeB a.name b.name = true ∧ a.name ≠ b.name)
      (sortTensorsByName ts)
    ∧ (assignOffsets bpe (sortTensorsByName ts) 0).map Prod.snd
        = runningSums 0 ((sortTensorsByName ts).map (tensorSize bpe))
    ∧ List.Pairwise (fun a b : Nat => a ≤ b)
        ((assignOffsets bpe (sortTensorsByName ts) 0).map Prod.snd)
    ∧ ((∀ t ∈ ts, 0 < tensorSize bpe t) →
        List.Pairwise (fun a b : Nat => a < b)
          ((assignOffsets bpe (sortTensorsByName ts) 0).map Prod.snd)) := by
  have hpk : (sortKVByKey kv).Perm kv := List.perm_insertionSort keyLe kv
  have hpt : (sortTensorsByName ts).Perm ts := List.perm_insertionSort tensorLe ts
  refine ⟨?_, ?_, assignOffsets_snd bpe _ 0, ?_, ?_⟩
  · have hs : List.Pairwise keyLe (sortKVByKey kv) :=
      List.sorted_insertionSort keyLe kv
    have hmap : List.Pairwise (fun a b => byteLeB a b = true)
        ((sortKVByKey kv).map Prod.fst) :=
      (List.pairwise_map).mpr hs
    have hnd2 : ((sortKVByKey kv).map Prod.fst).Nodup :=
      ((hpk.map Prod.fst).nodup_iff).mpr hndk
    exact hmap.and hnd2
  · have hs : List.Pairwise tensorLe (sortTensorsByName ts) :=
      List.sorted_insertionSort tensorLe ts
    have hnd2 : ((sortTensorsByName ts).map WTensor.name).Nodup :=
      ((hpt.map WTensor.name).nodup_iff).mpr hndt
    have hnd3 : List.Pairwise (fun a b : WTensor => a.name ≠ b.name)
        (sortTensorsByName ts) := (List.pairwise_map).mp hnd2
    exact hs.and hnd3
  · rw [assignOffsets_snd]
    exact runningSums_pairwise_le 0 _
  · intro hpos
    rw [assignOffsets_snd]
    refine runningSums_pairwise_lt 0 _ (fun x hx => ?_)
    obtain ⟨t, ht, rfl⟩ := List.mem_map.mp hx
    exact hpos t (hpt.mem_iff.mp ht)

/-- Claim C3, counterexample to the strict monotonicity as stated: two
tensors whose shape contains a zero dimension have size `0`, so both are
assigned offset `0` — the offsets are not strictly increasing. -/
theorem c3_counterexample :
    (assignOffsets (fun _ => 4)
      (sortTensorsByName [⟨[97], 0, [0], []⟩, ⟨[98], 0, [0], []⟩]) 0).map Prod.snd
      = [0, 0]
    ∧ ¬ List.Pairwise (fun a b : Nat => a < b) [0, 0] := by
  constructor
  · decide
  · intro h
    have := List.rel_of_pairwise_cons h (List.mem_singleton.mpr rfl)
    omega

/-- Claim C3, witness: concrete unsorted inputs; keys come out strictly
ascending and, with positive sizes, offsets strictly increase. -/
theorem c3_witness :
    List.Pairwise (fun a b => byteLeB a b = true ∧ a ≠ b)
      ((sortKVByKey [([98], GoVal.scalar (.u32 1)),
        ([97], GoVal.scalar (.bool true))]).map Prod.fst)
    ∧ List.Pairwise (fun a b : Nat => a < b)
      ((assignOffsets (fun _ => 4)
        (sortTensorsByName [⟨[98], 0, [4], []⟩, ⟨[97], 0, [2, 3], []⟩]) 0).map
          Prod.snd) := by
  have h := c3_writer_ordering_amended (fun _ => 4)
    [([98], GoVal.scalar (.u32 1)), ([97], GoVal.scalar (.bool true))]
    [⟨[98], 0, [4], []⟩, ⟨[97], 0, [2, 3], []⟩] (by decide) (by decide) (by decide)
  exact ⟨h.1, h.2.2.2.2 (by decide)⟩

/-! ## Write-time type restriction (claim C4) -/

def isOkExcept : Except WriteErr (List Nat) → Bool
  | .ok _ => true
  | .error _ => false

theorem writeKVPairs_isOk (l : List (List Nat × GoVal)) :
    isOkExcept (writeKVPairs l) = true ↔ ∀ p ∈ l, supported p.2 = true := by
  induction l with
  | nil => simp [writeKVPairs, isOkExcept]
  | cons p l ih =>
      obtain ⟨k, v⟩ := p
      rw [writeKVPairs]
      cases hb : ggufValueBytes v with
      | some body =>
          have hs : supported v = true := by
            rw [← ggufValueBytes_isSome_iff, hb]
            rfl
          rw [ggufWriteKV, hb]
          cases hrest : writeKVPairs l with
          | ok bs =>
              constructor
              · intro _
                rw [List.forall_mem_cons]
                refine ⟨hs, ?_⟩
                rw [← ih, hrest]
                rfl
              · intro _
                rfl
          | error e =>
              constructor
              · intro hfalse
                simp [isOkExcept] at hfalse
              · intro hall
                have h2 : isOkExcept (writeKVPairs l) = true :=
                  ih.mpr (fun q hq => hall q (List.mem_cons_of_mem _ hq))
                rw [hrest] at h2
                simp [isOkExcept] at h2
      | none =>
          have hs : supported v = false := by
            rw [← ggufValueBytes_isSome_iff, hb]
            rfl
          rw [ggufWriteKV, hb]
          constructor
          · intro hfalse
            simp [isOkExcept] at hfalse
          · intro hall
            have h3 := hall (k, v) (List.mem_cons_self _ _)
            rw [hs] at h3
            cases h3

theorem writeKVPairs_error (l : List (List Nat × GoVal)) (e : WriteErr)
    (h : writeKVPairs l = .error e) :
    ∃ p, p ∈ l ∧ e = .improperType p.1 ∧ supported p.2 = false := by
  induction l with
  | nil => cases h
  | cons p l ih =>
      obtain ⟨k, v⟩ := p
      rw [writeKVPairs] at h
      cases hb : ggufValueBytes v with
      | none =>
          have hs : supported v = false := by
            rw [← ggufValueBytes_isSome_iff, hb]
            rfl
          rw [ggufWriteKV, hb] at h
          refine ⟨(k, v), by simp, ?_, hs⟩
          cases h
          rfl
      | some body =>
          rw [ggufWriteKV, hb] at h
          cases hrest : writeKVPairs l with
          | ok bs =>
              rw [hrest] at h
              cases h
          | error e2 =>
              rw [hrest] at h
              cases h
              obtain ⟨q, hq, he, hsup⟩ := ih hrest
              exact ⟨q, by simp [hq], he, hsup⟩

theorem WriteGGUF_isOk_eq (bpe : Nat → Nat) (kv : List (List Nat × GoVal))
    (ts : List WTensor) :
    isOkExcept (WriteGGUF bpe kv ts) = isOkExcept (writeKVPairs (sortKVByKey kv)) := by
  cases h : writeKVPairs (sortKVByKey kv) with
  | ok bs =>
      rw [WriteGGUF, h]
      rfl
  | error e =>
      rw [WriteGGUF, h]

theorem WriteGGUF_error_iff (bpe : Nat → Nat) (kv : List (List Nat × GoVal))
    (ts : List WTensor) (e : WriteErr) :
    WriteGGUF bpe kv ts = .error e ↔ writeKVPairs (sortKVByKey kv) = .error e := by
  cases h : writeKVPairs (sortKVByKey kv) with
  | ok bs =>
      rw [WriteGGUF, h]
      simp
  | error e2 =>
      rw [WriteGGUF, h]

/-- Claim C4.  `ggufWriteKV` succeeds exactly on the eight supported runtime
types (`u32`, `f32`, `bool`, `string`, `[]i32`, `[]u32`, `[]f32`,
`[]string`); on any other runtime type it returns the improper-type error
naming the key; and `WriteGGUF` succeeds iff every metadata value is of a
supported type, the error it propagates being the improper-type error naming
an offending key of the map. -/
theorem c4_writekv_types (k : List Nat) (v : GoVal) (bpe : Nat → Nat)
    (kv : List (List Nat × GoVal)) (ts : List WTensor) :
    ((supported v = true → ggufWriteKV k v
        = .ok (natLE 8 k.length ++ k ++ (ggufValueBytes v).getD []))
      ∧ (supported v = false → ggufWriteKV k v = .error (.improperType k)))
    ∧ (isOkExcept (WriteGGUF bpe kv ts) = true ↔ ∀ p ∈ kv, supported p.2 = true)
    ∧ (∀ e, WriteGGUF bpe kv ts = .error e
        → ∃ p, p ∈ kv ∧ e = .improperType p.1 ∧ supported p.2 = false) := by
  refine ⟨⟨?_, ?_⟩, ?_, ?_⟩
  · intro hs
    have hb : (ggufValueBytes v).isSome = true := by
      rw [ggufValueBytes_isSome_iff, hs]
    obtain ⟨body, hbody⟩ := Option.isSome_iff_exists.mp hb
    rw [ggufWriteKV, hbody]
    rfl
  · intro hs
    have hb : ggufValueBytes v = none := by
      cases hbb : ggufValueBytes v with
      | none => rfl
      | some body =>
          have : (ggufValueBytes v).isSome = true := by rw [hbb]; rfl
          rw [ggufValueBytes_isSome_iff, hs] at this
          cases this
    rw [ggufWriteKV, hb]
  · rw [WriteGGUF_isOk_eq, writeKVPairs_isOk]
    constructor
    · intro h p hp
      exact h p ((List.mem_insertionSort keyLe).mpr hp)
    · intro h p hp
      exact h p ((List.mem_insertionSort keyLe).mp hp)
  · intro e he
    rw [WriteGGUF_error_iff] at he
    obtain ⟨p, hp, he2, hsup⟩ := writeKVPairs_error _ e he
    exact ⟨p, (List.mem_insertionSort keyLe).mp hp, he2, hsup⟩

/-- Claim C4, witness: a `u64` scalar (unsupported) is rejected with the
improper-type error naming its key and makes `WriteGGUF` fail, while a `u32`
map writes fine. -/
theorem c4_witness :
    ggufWriteKV [107] (GoVal.scalar (.u64 5)) = .error (.improperType [107])
    ∧ isOkExcept (WriteGGUF (fun _ => 4) [([97], GoVal.scalar (.u64 5))] []) = false
    ∧ isOkExcept (WriteGGUF (fun _ => 4) [([97], GoVal.scalar (.u32 5))] []) = true := by
  have h1 := c4_writekv_types [107] (GoVal.scalar (.u64 5)) (fun _ => 4)
    [([97], GoVal.scalar (.u64 5))] []
  have h2 := c4_writekv_types [97] (GoVal.scalar (.u32 5)) (fun _ => 4)
    [([97], GoVal.scalar (.u32 5))] []
  refine ⟨h1.1.2 (by decide), ?_, h2.2.1.mpr (by decide)⟩
  cases hok : isOkExcept (WriteGGUF (fun _ => 4) [([97], GoVal.scalar (.u64 5))] []) with
  | false => rfl
  | true => exact absurd (h1.2.1.mp hok) (by decide)

/-! ## The v1 string reader (claim C10) -/

/-- Claim C10.  `readGGUFV1String` strips the final byte of the
length-prefixed payload unconditionally, whatever that byte's value: with a
recorded length of at least 1 it returns the payload minus its last byte and
leaves the suffix in place, while with a recorded length of 0 the buffer
truncation index `b.Len() - 1` is negative and the out-of-range panic branch
is reached. -/
theorem c10_v1_string (payload rest : List Nat) (hlen : payload.length < 2 ^ 64) :
    (payload ≠ [] →
      readGGUFV1String (natLE 8 payload.length ++ (payload ++ rest))
        = .ok payload.dropLast rest)
    ∧ readGGUFV1String (natLE 8 0 ++ rest) = .panicked := by
  have h64 : payload.length < 256 ^ 8 := by
    have he : (256 : Nat) ^ 8 = 2 ^ 64 := by norm_num
    rw [he]
    exact hlen
  constructor
  · intro hne
    rw [readGGUFV1String, readLE_natLE_of_lt h64]
    have hle : payload.length ≤ (payload ++ rest).length := by simp
    have hne2 : ¬ payload.length = 0 := by simpa using hne
    simp [hle, hne2, List.take_left, List.drop_left]
  · have h0 : (0 : Nat) < 256 ^ 8 := by norm_num
    rw [readGGUFV1String, readLE_natLE_of_lt h0]
    simp

/-- Claim C10, witness: the payload `"hi\x00"` of recorded length 3 reads
back as `"hi"`, and a recorded length of 0 panics. -/
theorem c10_witness :
    readGGUFV1String (natLE 8 3 ++ ([104, 105, 0] ++ [7, 7]))
      = .ok [104, 105] [7, 7]
    ∧ readGGUFV1String (natLE 8 0 ++ [7, 7]) = .panicked := by
  have h := c10_v1_string [104, 105, 0] [7, 7] (by decide)
  exact ⟨h.1 (by decide), h.2⟩

/-! ## The conversion package (`convert`)

Strings on this side are Lean `String`s (Go strings of text).  `float32`
configuration values are embedded as exact rationals: the code only ever
compares them with zero (`cmp.Or` and `> 0`), and every `float32` is an exact
rational, so the embedding is faithful.  Vocabulary scores are embedded as
`Int`: the only scores this code constructs are `float32(id)` for integer ids
and `-1`, both exact. -/

inductive CVal where
  | u32 (n : Nat)
  | f32 (x : Rat)
  | boolV (b : Bool)
  | str (s : String)
  | arrStr (l : List String)
  | arrF32 (l : List Int)
  | arrI32 (l : List Int)
deriving DecidableEq, Repr

/-- Token type codes (the `tokenType*` constants, `iota` from 1). -/
def tokenTypeNormal : Int := 1
def tokenTypeUnknown : Int := 2
def tokenTypeControl : Int := 3
def tokenTypeUserDefined : Int := 4
def tokenTypeUnused : Int := 5
def tokenTypeByte : Int := 6

structure Vocabulary where
  Tokens : List String
  Scores : List Int
  Types : List Int
  Merges : List String
deriving DecidableEq, Repr

/-- Model of `SpecialVocabulary` (field `Type` renamed `typ`). -/
structure SpecialVocabulary where
  typ : String
  id : Nat
  content : String
  addToken : Bool
deriving DecidableEq, Repr

/-- Model of `SpecialVocabulary.Key`: the `switch` maps `bos`/`eos` to themselves,
`pad` to `padding`, `unk` to `unknown`, and panics on every other type;
the panic is modelled as `none`. -/
def svKey (t : String) : Option String :=
  if t = "bos" ∨ t = "eos" then some t
  else if t = "pad" then some "padding"
  else if t = "unk" then some "unknown"
  else none

/-- Model of `Parameters.SpecialTypes`. -/
def specialTypes : List String :=
  ["bos", "eos", "unk", "sep", "pad", "cls", "mask"]

/-- The per-special-entry assignments of `Parameters.KV`
(`tokenizer.ggml.<key>_token_id` and `tokenizer.ggml.add_<key>_token`);
`none` when `Key()` panics for some entry. -/
def svEntries : List SpecialVocabulary → Option (List (String × CVal))
  | [] => some []
  | sv :: rest =>
      match svKey sv.typ with
      | none => none
      | some key =>
          (svEntries rest).map (fun tail =>
            ("tokenizer.ggml." ++ key ++ "_token_id", CVal.u32 sv.id)
              :: ("tokenizer.ggml.add_" ++ key ++ "_token", CVal.boolV sv.addToken)
              :: tail)

/-- The fixed entries of `Parameters.KV`. -/
def baseKV (v : Vocabulary) : List (String × CVal) :=
  [("general.file_type", .u32 1),
   ("tokenizer.ggml.pre", .str "default"),
   ("tokenizer.ggml.tokens", .arrStr v.Tokens),
   ("tokenizer.ggml.scores", .arrF32 v.Scores),
   ("tokenizer.ggml.token_type", .arrI32 v.Types)]

/-- Model of `Parameters.KV` as its assignment sequence. -/
def ParametersKV (v : Vocabulary) (svs : List SpecialVocabulary) :
    Option (List (String × CVal)) :=
  (svEntries svs).map (fun e => baseKV v ++ e)

/-- The `llama` parameter struct (`convert_llama.go`). -/
structure LlamaParams where
  VocabSize : Nat
  NLayers : Nat
  NumHiddenLayers : Nat
  NLayer : Nat
  MaxPositionEmbeddings : Nat
  NCtx : Nat
  HiddenSize : Nat
  NEmbd : Nat
  IntermediateSize : Nat
  NInner : Nat
  NumAttentionHeads : Nat
  NHead : Nat
  NumKeyValueHeads : Nat
  RopeTheta : Rat
  RMSNormEPS : Rat
  LayerNormEPS : Rat
  LayerNormEpsilon : Rat
  NormEpsilon : Rat
  NumLocalExperts : Nat
  NumExpertsPerToken : Nat
deriving DecidableEq, Repr

/-- Model of `cmp.Or` on two `uint32`s: the first nonzero value, else zero. -/
def orU (a b : Nat) : Nat := if a ≠ 0 then a else b

/-- Model of `cmp.Or` on three `uint32`s. -/
def orU3 (a b c : Nat) : Nat := orU a (orU b c)

/-- Model of `cmp.Or` on three `float32`s. -/
def orQ3 (a b c : Rat) : Rat := if a ≠ 0 then a else if b ≠ 0 then b else c

/-- The assignments `llama.KV` performs after the base `Parameters.KV` map,
in source order; conditional keys become empty segments when skipped. -/
def llamaTail (p : LlamaParams) (v : Vocabulary) : List (String × CVal) :=
  [("general.architecture", .str "llama"),
   ("general.name", .str "llama"),
   ("llama.block_count", .u32 (orU3 p.NLayers p.NumHiddenLayers p.NLayer)),
   ("llama.vocab_size", .u32 p.VocabSize)]
  ++ (if 0 < orU p.MaxPositionEmbeddings p.NCtx then
        [("llama.context_length", .u32 (orU p.MaxPositionEmbeddings p.NCtx))] else [])
  ++ (if 0 < orU p.HiddenSize p.NEmbd then
        [("llama.embedding_length", .u32 (orU p.HiddenSize p.NEmbd))] else [])
  ++ (if 0 < orU p.IntermediateSize p.NInner then
        [("llama.feed_forward_length", .u32 (orU p.IntermediateSize p.NInner))] else [])
  ++ (if 0 < orU p.NumAttentionHeads p.NHead then
        [("llama.attention.head_count", .u32 (orU p.NumAttentionHeads p.NHead)),
         ("llama.rope.dimension_count",
           .u32 (p.HiddenSize / orU p.NumAttentionHeads p.NHead))] else [])
  ++ (if 0 < p.NumKeyValueHeads then
        [("llama.attention.head_count_kv", .u32 p.NumKeyValueHeads)] else [])
  ++ (if 0 < p.RopeTheta then
        [("llama.attention.rope_freq_base", .f32 p.RopeTheta)] else [])
  ++ (if 0 < p.RMSNormEPS then
        [("llama.attention.layer_norm_rms_epsilon", .f32 p.RMSNormEPS)] else [])
  ++ (if 0 < orQ3 p.LayerNormEPS p.LayerNormEpsilon p.NormEpsilon then
        [("llama.attention.layer_norm_epsilon",
           .f32 (orQ3 p.LayerNormEPS p.LayerNormEpsilon p.NormEpsilon))] else [])
  ++ (if 0 < p.NumLocalExperts then
        [("llama.attention.expert_count", .u32 p.NumLocalExperts)] else [])
  ++ (if 0 < p.NumExpertsPerToken then
        [("llama.attention.expert_used_count", .u32 p.NumExpertsPerToken)] else [])
  ++ (if 0 < v.Merges.length then
        [("tokenizer.ggml.merges", .arrStr v.Merges)] else [])
  ++ [("tokenizer.ggml.model", .str "llama")]

/-- Model of `llama.KV`: the base map followed by the architecture assignments. -/
def llamaKV (p : LlamaParams) (v : Vocabulary) (svs : List SpecialVocabulary) :
    Option (List (String × CVal)) :=
  (ParametersKV v svs).map (fun base => base ++ llamaTail p v)

/-- A source tensor as the `convert.Tensor` interface exposes it. -/
structure ConvTensor where
  name : String
  kind : Nat
  shape : List Nat
deriving DecidableEq, Repr

/-- Model of `phi.Tensors`: declares `out`, appends nothing, returns it. -/
def phiTensors (ts : List ConvTensor) : List WTensor := []

/-- The two tokenizer formats `parseVocabulary` can select. -/
inductive TokFormat where
  | sentencePiece
  | bpe
deriving DecidableEq, Repr

/-- Which tokenizer files a source directory contains. -/
structure TokDir where
  hasTokenizerModel : Bool
  hasTokenizerJson : Bool
deriving DecidableEq, Repr

/-- The `patterns` table of `parseVocabulary`. -/
def patternParseFn (pat : String) : Option TokFormat :=
  if pat = "tokenizer.model" then some .sentencePiece
  else if pat = "tokenizer.json" then some .bpe
  else none

/-- Model of `filepath.Glob` hit count for a pattern in the directory. -/
def globMatches (d : TokDir) (pat : String) : Nat :=
  if pat = "tokenizer.model" then (if d.hasTokenizerModel then 1 else 0)
  else if pat = "tokenizer.json" then (if d.hasTokenizerJson then 1 else 0)
  else 0

inductive VocabErr where
  | unknownTensorFormat
deriving DecidableEq, Repr

/-- Model of `parseVocabulary`: iterates the `patterns` map and returns the parser of
the first pattern with a glob hit; missing all patterns is the
unknown-tensor-format error.  `patterns` is a Go `map`, whose iteration
order is unspecified, so the order the runtime chose is the explicit
argument `order`. -/
def parseVocabularySelect : List String → TokDir → Except VocabErr TokFormat
  | [], _ => .error .unknownTensorFormat
  | pat :: rest, d =>
      if 0 < globMatches d pat then
        match patternParseFn pat with
        | some f => .ok f
        | none => parseVocabularySelect rest d
      else parseVocabularySelect rest d

/-- Model of `fmt.Sprintf("<dummy%05d>", i)`. -/
def dummyTokenName (i : Nat) : String :=
  let s := toString i
  "<dummy" ++ String.mk (List.replicate (5 - s.length) '0') ++ s ++ ">"

/-- The vocabulary-padding step of `Convert`: when the configured
`vocab_size` exceeds the parsed token count, append dummy tokens with score
`-1` and type `UserDefined` until the counts agree. -/
def padVocabulary (vocabSize : Nat) (v : Vocabulary) : Vocabulary :=
  if v.Tokens.length < vocabSize then
    let n := vocabSize - v.Tokens.length
    { Tokens := v.Tokens ++ (List.range n).map dummyTokenName,
      Scores := v.Scores ++ List.replicate n (-1),
      Types := v.Types ++ List.replicate n tokenTypeUserDefined,
      Merges := v.Merges }
  else v

/-! ## Special-token key mapping (claim C5) -/

theorem svKey_isSome (t : String) :
    (svKey t).isSome = true ↔ t ∈ ["bos", "eos", "pad", "unk"] := by
  by_cases h1 : t = "bos"
  · subst h1
    simp [svKey]
  by_cases h2 : t = "eos"
  · subst h2
    simp [svKey]
  by_cases h3 : t = "pad"
  · subst h3
    simp [svKey]
  by_cases h4 : t = "unk"
  · subst h4
    simp [svKey]
  rw [svKey, if_neg (by simp [h1, h2]), if_neg h3, if_neg h4]
  simp [h1, h2, h3, h4]

theorem svEntries_isSome (svs : List SpecialVocabulary) :
    (svEntries svs).isSome = true ↔ ∀ sv ∈ svs, sv.typ ∈ ["bos", "eos", "pad", "unk"] := by
  induction svs with
  | nil => simp [svEntries]
  | cons sv svs ih =>
      rw [svEntries]
      cases hk : svKey sv.typ with
      | none =>
          have hmem : ¬ sv.typ ∈ ["bos", "eos", "pad", "unk"] := by
            rw [← svKey_isSome, hk]
            simp
          constructor
          · intro hf
            simp at hf
          · intro hall
            exact absurd (hall sv (List.mem_cons_self _ _)) hmem
      | some key =>
          have hmem : sv.typ ∈ ["bos", "eos", "pad", "unk"] := by
            rw [← svKey_isSome, hk]
            rfl
          cases he : svEntries svs with
          | none =>
              rw [he] at ih
              simp only [Option.map_none']
              constructor
              · intro hf
                simp at hf
              · intro hall
                have h2 : (∀ sv2 ∈ svs, sv2.typ ∈ ["bos", "eos", "pad", "unk"]) :=
                  fun q hq => hall q (List.mem_cons_of_mem _ hq)
                have h3 := ih.mpr h2
                simp at h3
          | some tail2 =>
              rw [he] at ih
              simp only [Option.map_some']
              constructor
              · intro _
                rw [List.forall_mem_cons]
                exact ⟨hmem, ih.mp rfl⟩
              · intro _
                rfl

/-- Claim C5, counterexample: `sep` is among the declared special types, but
`Key()` does not pass it through — it panics (`none`), instead of returning
`sep` as the claim states. -/
theorem c5_counterexample :
    "sep" ∈ specialTypes ∧ svKey "sep" = none ∧ svKey "sep" ≠ some "sep" := by
  decide

/-- Claim C5 (amended).  `Key()` maps `bos` to `bos`, `eos` to `eos`, `pad`
to `padding`, `unk` to `unknown`, and panics on every other logical type —
including `sep`, `cls` and `mask`, which `SpecialTypes` declares.
Consequently `Parameters.KV` completes exactly when every resolved entry has
one of those four types, and for such an entry it emits
`tokenizer.ggml.<key>_token_id` and `tokenizer.ggml.add_<key>_token`. -/
theorem c5_key_mapping_amended :
    svKey "bos" = some "bos" ∧ svKey "eos" = some "eos"
    ∧ svKey "pad" = some "padding" ∧ svKey "unk" = some "unknown"
    ∧ (∀ t, t ≠ "bos" → t ≠ "eos" → t ≠ "pad" → t ≠ "unk" → svKey t = none)
    ∧ (∀ (v : Vocabulary) (svs : List SpecialVocabulary),
        (ParametersKV v svs).isSome = true
          ↔ ∀ sv ∈ svs, sv.typ ∈ ["bos", "eos", "pad", "unk"])
    ∧ (∀ (v : Vocabulary) (sv : SpecialVocabulary) (key : String),
        svKey sv.typ = some key →
          ParametersKV v [sv] = some (baseKV v
            ++ [("tokenizer.ggml." ++ key ++ "_token_id", CVal.u32 sv.id),
                ("tokenizer.ggml.add_" ++ key ++ "_token", CVal.boolV sv.addToken)])) := by
  refine ⟨by decide, by decide, by decide, by decide, ?_, ?_, ?_⟩
  · intro t h1 h2 h3 h4
    rw [svKey, if_neg (by simp [h1, h2]), if_neg h3, if_neg h4]
  · intro v svs
    rw [ParametersKV]
    cases he : svEntries svs with
    | none =>
        have h2 := svEntries_isSome svs
        rw [he] at h2
        simp only [Option.map_none']
        constructor
        · intro hf
          simp at hf
        · intro hall
          have h3 := h2.mpr hall
          simp at h3
    | some e =>
        have h2 := svEntries_isSome svs
        rw [he] at h2
        simp only [Option.map_some']
        constructor
        · intro _
          exact h2.mp rfl
        · intro _
          rfl
  · intro v sv key hkey
    rw [ParametersKV, svEntries, hkey, svEntries]
    rfl

/-- Claim C5, witness: instantiating the amended mapping at `cls` (panic) and
at a concrete resolved `pad` entry. -/
theorem c5_witness :
    svKey "cls" = none
    ∧ svKey "pad" = some "padding"
    ∧ ParametersKV ⟨[], [], [], []⟩ [⟨"pad", 3, "<pad>", true⟩]
        = some (baseKV ⟨[], [], [], []⟩
          ++ [("tokenizer.ggml.padding_token_id", CVal.u32 3),
              ("tokenizer.ggml.add_padding_token", CVal.boolV true)]) := by
  have h := c5_key_mapping_amended
  refine ⟨h.2.2.2.2.1 "cls" (by decide) (by decide) (by decide) (by decide),
    h.2.2.1, ?_⟩
  have h2 := h.2.2.2.2.2.2 ⟨[], [], [], []⟩ ⟨"pad", 3, "<pad>", true⟩ "padding"
    (by decide)
  simpa using h2

/-! ## Tokenizer probe order (claim C6) -/

/-- Claim C6 (code bug).  `parseVocabulary` iterates a Go `map`, whose
iteration order is unspecified: when both tokenizer files are present the
selected parser depends on the order the runtime happens to choose — the
iteration order `tokenizer.json` first selects the BPE parser, contradicting
the claimed fixed probe order.  With neither file present every order yields
the unknown-tensor-format error, as claimed. -/
theorem c6_probe_order_dependent :
    parseVocabularySelect ["tokenizer.model", "tokenizer.json"] ⟨true, true⟩
      = .ok .sentencePiece
    ∧ parseVocabularySelect ["tokenizer.json", "tokenizer.model"] ⟨true, true⟩
      = .ok .bpe
    ∧ parseVocabularySelect ["tokenizer.model", "tokenizer.json"] ⟨false, false⟩
      = .error .unknownTensorFormat
    ∧ parseVocabularySelect ["tokenizer.json", "tokenizer.model"] ⟨false, false⟩
      = .error .unknownTensorFormat := by
  exact ⟨rfl, rfl, rfl, rfl⟩

/-! ## Llama adapter hyperparameter keys (claim C7) -/

/-- The token-id / add-token keys `Parameters.KV` can generate (the four
non-panicking `Key()` results, two keys each). -/
def svTokenKeys : List String :=
  ["tokenizer.ggml.bos_token_id", "tokenizer.ggml.add_bos_token",
   "tokenizer.ggml.eos_token_id", "tokenizer.ggml.add_eos_token",
   "tokenizer.ggml.padding_token_id", "tokenizer.ggml.add_padding_token",
   "tokenizer.ggml.unknown_token_id", "tokenizer.ggml.add_unknown_token"]

/-- The keys of the fixed entries of `Parameters.KV`. -/
def baseKVKeys : List String :=
  ["general.file_type", "tokenizer.ggml.pre", "tokenizer.ggml.tokens",
   "tokenizer.ggml.scores", "tokenizer.ggml.token_type"]

theorem svKey_some_cases {t key : String} (h : svKey t = some key) :
    key = "bos" ∨ key = "eos" ∨ key = "padding" ∨ key = "unknown" := by
  rw [svKey] at h
  split_ifs at h with h1 h2 h3
  · have ht : t = key := Option.some.inj h
    rcases h1 with hb | he
    · left
      rw [← ht]
      exact hb
    · right
      left
      rw [← ht]
      exact he
  · right
    right
    left
    exact (Option.some.inj h).symm
  · right
    right
    right
    exact (Option.some.inj h).symm

theorem svEntries_keys {svs : List SpecialVocabulary} {e : List (String × CVal)}
    (h : svEntries svs = some e) : ∀ q ∈ e, q.1 ∈ svTokenKeys := by
  induction svs generalizing e with
  | nil =>
      rw [svEntries] at h
      cases h
      intro q hq
      cases hq
  | cons sv svs ih =>
      rw [svEntries] at h
      cases hk : svKey sv.typ with
      | none =>
          rw [hk] at h
          cases h
      | some key =>
          rw [hk] at h
          cases he : svEntries svs with
          | none =>
              rw [he] at h
              cases h
          | some tail2 =>
              rw [he] at h
              cases h
              intro q hq
              rcases List.mem_cons.mp hq with rfl | hq2
              · rcases svKey_some_cases hk with rfl | rfl | rfl | rfl <;>
                  simp [svTokenKeys]
              rcases List.mem_cons.mp hq2 with rfl | hq3
              · rcases svKey_some_cases hk with rfl | rfl | rfl | rfl <;>
                  simp [svTokenKeys]
              exact ih he q hq3

theorem paramsKV_keys {v : Vocabulary} {svs : List SpecialVocabulary}
    {base : List (String × CVal)} (h : ParametersKV v svs = some base) :
    ∀ q ∈ base, q.1 ∈ baseKVKeys ++ svTokenKeys := by
  rw [ParametersKV] at h
  cases he : svEntries svs with
  | none =>
      rw [he] at h
      cases h
  | some e =>
      rw [he] at h
      cases h
      intro q hq
      rcases List.mem_append.mp hq with h1 | h2
      · rw [List.mem_append]
        left
        simp only [baseKV, List.mem_cons, List.not_mem_nil, or_false] at h1
        rcases h1 with rfl | rfl | rfl | rfl | rfl <;> simp [baseKVKeys]
      · rw [List.mem_append]
        right
        exact svEntries_keys he q h2

theorem paramsKV_not_mem {v : Vocabulary} {svs : List SpecialVocabulary}
    {base : List (String × CVal)} (h : ParametersKV v svs = some base)
    (k : String) (hk : ¬ k ∈ baseKVKeys ++ svTokenKeys) :
    ¬ k ∈ base.map Prod.fst := by
  intro hmem
  obtain ⟨q, hq, rfl⟩ := List.mem_map.mp hmem
  exact hk (paramsKV_keys h q hq)

theorem mem_map_ite_seg {c : Prop} [Decidable c] {k : String}
    {seg : List (String × CVal)} :
    (k ∈ (if c then seg else []).map Prod.fst) ↔ c ∧ k ∈ seg.map Prod.fst := by
  split
  · case isTrue hc => simp [hc]
  · case isFalse hc => simp [hc]

/-- Claim C7 (amended).  In the map produced by `llama.KV`: every listed
conditional hyperparameter key is present exactly when its underlying source
parameter (via `cmp.Or`) is positive — but `llama.block_count` (and
`llama.vocab_size`) are written unconditionally, with value `0` when the
source parameters are zero/absent, contrary to the claim. -/
theorem c7_llama_kv_amended (p : LlamaParams) (v : Vocabulary)
    (svs : List SpecialVocabulary) (kv : List (String × CVal))
    (h : llamaKV p v svs = some kv) :
    ("llama.block_count", CVal.u32 (orU3 p.NLayers p.NumHiddenLayers p.NLayer)) ∈ kv
    ∧ ("llama.vocab_size", CVal.u32 p.VocabSize) ∈ kv
    ∧ ("llama.context_length" ∈ kv.map Prod.fst
        ↔ 0 < orU p.MaxPositionEmbeddings p.NCtx)
    ∧ ("llama.embedding_length" ∈ kv.map Prod.fst ↔ 0 < orU p.HiddenSize p.NEmbd)
    ∧ ("llama.feed_forward_length" ∈ kv.map Prod.fst
        ↔ 0 < orU p.IntermediateSize p.NInner)
    ∧ ("llama.attention.head_count" ∈ kv.map Prod.fst
        ↔ 0 < orU p.NumAttentionHeads p.NHead)
    ∧ ("llama.rope.dimension_count" ∈ kv.map Prod.fst
        ↔ 0 < orU p.NumAttentionHeads p.NHead)
    ∧ ("llama.attention.head_count_kv" ∈ kv.map Prod.fst
        ↔ 0 < p.NumKeyValueHeads)
    ∧ ("llama.attention.rope_freq_base" ∈ kv.map Prod.fst ↔ 0 < p.RopeTheta)
    ∧ ("llama.attention.layer_norm_rms_epsilon" ∈ kv.map Prod.fst
        ↔ 0 < p.RMSNormEPS)
    ∧ ("llama.attention.layer_norm_epsilon" ∈ kv.map Prod.fst
        ↔ 0 < orQ3 p.LayerNormEPS p.LayerNormEpsilon p.NormEpsilon)
    ∧ ("llama.attention.expert_count" ∈ kv.map Prod.fst ↔ 0 < p.NumLocalExperts)
    ∧ ("llama.attention.expert_used_count" ∈ kv.map Prod.fst
        ↔ 0 < p.NumExpertsPerToken) := by
  rw [llamaKV] at h
  cases hb : ParametersKV v svs with
  | none =>
      rw [hb] at h
      cases h
  | some base =>
      rw [hb] at h
      cases h
      refine ⟨by simp [llamaTail], by simp [llamaTail], ?_, ?_, ?_, ?_, ?_, ?_,
        ?_, ?_, ?_, ?_, ?_⟩
      · have h2 : ¬ ("llama.context_length" : String) ∈ base.map Prod.fst :=
          paramsKV_not_mem hb _ (by decide)
        simp [llamaTail, List.map_append, List.mem_append, mem_map_ite_seg, h2]
      · have h2 : ¬ ("llama.embedding_length" : String) ∈ base.map Prod.fst :=
          paramsKV_not_mem hb _ (by decide)
        simp [llamaTail, List.map_append, List.mem_append, mem_map_ite_seg, h2]
      · have h2 : ¬ ("llama.feed_forward_length" : String) ∈ base.map Prod.fst :=
          paramsKV_not_mem hb _ (by decide)
        simp [llamaTail, List.map_append, List.mem_append, mem_map_ite_seg, h2]
      · have h2 : ¬ ("llama.attention.head_count" : String) ∈ base.map Prod.fst :=
          paramsKV_not_mem hb _ (by decide)
        simp [llamaTail, List.map_append, List.mem_append, mem_map_ite_seg, h2]
      · have h2 : ¬ ("llama.rope.dimension_count" : String) ∈ base.map Prod.fst :=
          paramsKV_not_mem hb _ (by decide)
        simp [llamaTail, List.map_append, List.mem_append, mem_map_ite_seg, h2]
      · have h2 : ¬ ("llama.attention.head_count_kv" : String) ∈ base.map Prod.fst :=
          paramsKV_not_mem hb _ (by decide)
        simp [llamaTail, List.map_append, List.mem_append, mem_map_ite_seg, h2]
      · have h2 : ¬ ("llama.attention.rope_freq_base" : String) ∈ base.map Prod.fst :=
          paramsKV_not_mem hb _ (by decide)
        simp [llamaTail, List.map_append, List.mem_append, mem_map_ite_seg, h2]
      · have h2 : ¬ ("llama.attention.layer_norm_rms_epsilon" : String)
            ∈ base.map Prod.fst := paramsKV_not_mem hb _ (by decide)
        simp [llamaTail, List.map_append, List.mem_append, mem_map_ite_seg, h2]
      · have h2 : ¬ ("llama.attention.layer_norm_epsilon" : String)
            ∈ base.map Prod.fst := paramsKV_not_mem hb _ (by decide)
        simp [llamaTail, List.map_append, List.mem_append, mem_map_ite_seg, h2]
      · have h2 : ¬ ("llama.attention.expert_count" : String) ∈ base.map Prod.fst :=
          paramsKV_not_mem hb _ (by decide)
        simp [llamaTail, List.map_append, List.mem_append, mem_map_ite_seg, h2]
      · have h2 : ¬ ("llama.attention.expert_used_count" : String)
            ∈ base.map Prod.fst := paramsKV_not_mem hb _ (by decide)
        simp [llamaTail, List.map_append, List.mem_append, mem_map_ite_seg, h2]

/-- Claim C7, counterexample to the claim as stated: with every source
parameter zero, `llama.KV` still writes `llama.block_count` (with value `0`)
— the key is not omitted — while, e.g., `llama.context_length` is omitted. -/
theorem c7_counterexample :
    (llamaKV ⟨0, 0, 0, 0, 0, 0, 0, 0, 0, 0, 0, 0, 0, 0, 0, 0, 0, 0, 0, 0⟩
      ⟨[], [], [], []⟩ []).isSome = true
    ∧ ("llama.block_count", CVal.u32 0)
        ∈ (llamaKV ⟨0, 0, 0, 0, 0, 0, 0, 0, 0, 0, 0, 0, 0, 0, 0, 0, 0, 0, 0, 0⟩
          ⟨[], [], [], []⟩ []).getD []
    ∧ ¬ "llama.context_length"
        ∈ ((llamaKV ⟨0, 0, 0, 0, 0, 0, 0, 0, 0, 0, 0, 0, 0, 0, 0, 0, 0, 0, 0, 0⟩
          ⟨[], [], [], []⟩ []).getD []).map Prod.fst := by
  decide

/-- Claim C7, witness: nonzero parameters; the conditional keys appear and
`llama.block_count` carries the first nonzero layer count. -/
theorem c7_witness :
    ("llama.block_count", CVal.u32 2)
      ∈ (llamaKV ⟨32, 0, 2, 0, 128, 0, 8, 0, 16, 0, 4, 0, 2, 10000, 2,
          0, 0, 0, 0, 0⟩ ⟨[], [], [], []⟩ []).getD []
    ∧ ("llama.context_length"
        ∈ ((llamaKV ⟨32, 0, 2, 0, 128, 0, 8, 0, 16, 0, 4, 0, 2, 10000, 2,
            0, 0, 0, 0, 0⟩ ⟨[], [], [], []⟩ []).getD []).map Prod.fst)
    ∧ ¬ ("llama.attention.expert_count"
        ∈ ((llamaKV ⟨32, 0, 2, 0, 128, 0, 8, 0, 16, 0, 4, 0, 2, 10000, 2,
            0, 0, 0, 0, 0⟩ ⟨[], [], [], []⟩ []).getD []).map Prod.fst) := by
  have hkv : llamaKV ⟨32, 0, 2, 0, 128, 0, 8, 0, 16, 0, 4, 0, 2, 10000, 2,
      0, 0, 0, 0, 0⟩ ⟨[], [], [], []⟩ []
      = some ((llamaKV ⟨32, 0, 2, 0, 128, 0, 8, 0, 16, 0, 4, 0, 2, 10000, 2,
          0, 0, 0, 0, 0⟩ ⟨[], [], [], []⟩ []).getD []) := by
    decide
  have h := c7_llama_kv_amended _ _ _ _ hkv
  refine ⟨by simpa [orU3, orU] using h.1, h.2.2.1.mpr (by decide),
    fun hm => ?_⟩
  have h3 := h.2.2.2.2.2.2.2.2.2.2.2.1.mp hm
  simp at h3

/-! ## Vocabulary padding (claim C8) and the Phi adapter (claim C9) -/

/-- Claim C8.  For a parsed vocabulary (whose three parallel lists have equal
lengths) and any configured `vocab_size`: when `vocab_size` exceeds the token
count the driver appends exactly `vocab_size - len(tokens)` entries, the
`i`-th appended token named `<dummy%05d>` of `i` with score `-1` and type
`UserDefined`; otherwise the vocabulary is unchanged; afterwards the three
lists again have equal lengths. -/
theorem c8_vocab_padding (vocabSize : Nat) (v : Vocabulary)
    (h1 : v.Tokens.length = v.Scores.length)
    (h2 : v.Tokens.length = v.Types.length) :
    (v.Tokens.length < vocabSize →
      padVocabulary vocabSize v =
        { Tokens := v.Tokens
            ++ (List.range (vocabSize - v.Tokens.length)).map dummyTokenName,
          Scores := v.Scores ++ List.replicate (vocabSize - v.Tokens.length) (-1),
          Types := v.Types
            ++ List.replicate (vocabSize - v.Tokens.length) tokenTypeUserDefined,
          Merges := v.Merges })
    ∧ (¬ v.Tokens.length < vocabSize → padVocabulary vocabSize v = v)
    ∧ ((padVocabulary vocabSize v).Tokens.length
        = (padVocabulary vocabSize v).Scores.length
      ∧ (padVocabulary vocabSize v).Tokens.length
        = (padVocabulary vocabSize v).Types.length) := by
  refine ⟨fun hlt => ?_, fun hge => ?_, ?_⟩
  · rw [padVocabulary, if_pos hlt]
  · rw [padVocabulary, if_neg hge]
  · by_cases hlt : v.Tokens.length < vocabSize
    · rw [padVocabulary, if_pos hlt]
      constructor
      · simp [h1]
      · simp [h2]
    · rw [padVocabulary, if_neg hlt]
      exact ⟨h1, h2⟩

/-- Claim C8, witness: one parsed token, `vocab_size = 3`; the driver appends
`<dummy00000>` and `<dummy00001>` with scores `-1` and type `UserDefined`. -/
theorem c8_witness :
    padVocabulary 3 ⟨["a"], [5], [1], ["m"]⟩
      = ⟨["a", "<dummy00000>", "<dummy00001>"], [5, -1, -1], [1, 4, 4], ["m"]⟩
    ∧ padVocabulary 1 ⟨["a"], [5], [1], ["m"]⟩ = ⟨["a"], [5], [1], ["m"]⟩ := by
  have h := c8_vocab_padding 3 ⟨["a"], [5], [1], ["m"]⟩ (by decide) (by decide)
  have h2 := c8_vocab_padding 1 ⟨["a"], [5], [1], ["m"]⟩ (by decide) (by decide)
  refine ⟨?_, h2.2.1 (by decide)⟩
  rw [h.1 (by decide)]
  decide

/-- Claim C9.  `phi.Tensors` maps every input tensor sequence to the empty
list, so a Phi/Phi3 conversion hands the writer no tensors and the resulting
GGUF file decodes to zero tensor descriptors. -/
theorem c9_phi_tensors_empty (ts : List ConvTensor) (bpe : Nat → Nat) :
    phiTensors ts = [] ∧ decodedTensors bpe (phiTensors ts) = [] :=
  ⟨rfl, rfl⟩

end OllamaGGUF
